import Mathlib

/-!
# TinyWebServer: the reactor of `webserver.cpp`

A shallow embedding of `WebServer` (src/TinyWebServer/src/webserver.cpp and
webserver.h): the connection registry `m_connections`, the multiplexer's
interest set `m_epoll`, the timer queue `m_timerManager`, the worker pool's
task queue `m_pool`, and the operations `listen`, `release`, `eventHandler`,
`session`, `sendFile` and the loop body of `exec`.

Threads are not modelled: every operation is one atomic step on the state.
Whatever the environment decides (what `accept` yields, what the parser makes
of the bytes read, what a `write` returns) is an explicit argument.
-/

namespace TinyWebServer

/-- Descriptor of an OS socket (`Socket`). -/
abbrev Socket := Int

/-! ## Events delivered to the installed handler, and transport effects -/

/-- The enum `ExceptionEvent::Error` of event.h. -/
inductive ExceptionError where
  | UnknownError
  | SocketLoadFailed
  | ListenFailed
deriving DecidableEq, Repr

/-- The two kinds of `ConnectEvent` raised by webserver.cpp (`ConnectEvent::Accpet`
in `acceptConnection`, `ConnectEvent::Close` in `release`); event.h does not declare the
class, the event carries the descriptor of its socket here. -/
inductive ConnectType where
  | Accpet
  | Close
deriving DecidableEq, Repr

/-- The enum `HttpResponse::BodyType`, as far as `session` looks at it. -/
inductive BodyType where
  | PlainText
  | File
deriving DecidableEq, Repr

/-- Modelled from the spec: the parsed request (`HttpRequest`, not under src/), reduced to
the three observations `session` makes of it: `isValid()`, `isKeepAlive()`, `method()`. -/
structure HttpRequest where
  isValid : Bool
  isKeepAlive : Bool
  method : String
deriving DecidableEq, Repr

/-- Modelled from the spec: the response builder (`HttpResponse`, not under src/): its raw
headers, its body type and the path of a file body. -/
structure HttpResponse where
  rawHeaders : List (String × String)
  bodyType : BodyType
  filePath : String
deriving DecidableEq, Repr

/-- Modelled from the spec: `HttpResponse::setRawHeader(name, value)` sets the header `name`,
replacing a value the handler may have given it. -/
def HttpResponse.setRawHeader (r : HttpResponse) (name value : String) : HttpResponse :=
  { r with rawHeaders := r.rawHeaders.filter (fun h => h.1 != name) ++ [(name, value)] }

/-- Value of header `name` in the response, if it has one. -/
def HttpResponse.rawHeader (r : HttpResponse) (name : String) : Option String :=
  (r.rawHeaders.find? (fun h => h.1 == name)).map (fun h => h.2)

/-- What is handed to `connect->write`: the serialised response, or a file chunk of
`gcount` bytes. -/
inductive Payload where
  | response (r : HttpResponse)
  | chunk (gcount : Nat)
deriving DecidableEq, Repr

/-- Everything the server does that is visible outside its own state, in order:
events handed to `m_handler`, and the calls a session makes on the transport and on the
service dispatcher. -/
inductive Effect where
  | exceptionEvent (err : ExceptionError) (message : String)
  | connectEvent (fd : Socket) (type : ConnectType)
  | read (fd : Socket)
  | service (fd : Socket)
  | write (fd : Socket) (data : Payload) (result : Int)
deriving DecidableEq, Repr

/-- The effect is a write on the transport of descriptor `fd`. -/
def Effect.isWrite (fd : Socket) : Effect → Bool
  | .write d _ _ => d == fd
  | _ => false

/-- The effect is a call of the service dispatcher for descriptor `fd`. -/
def Effect.isService (fd : Socket) : Effect → Bool
  | .service d => d == fd
  | _ => false

/-- The effect is a `ConnectEvent` of the given type. -/
def Effect.isConnect (t : ConnectType) : Effect → Bool
  | .connectEvent _ ty => ty == t
  | _ => false

/-- The effect is the Close event of descriptor `fd`. -/
def Effect.isCloseOf (fd : Socket) : Effect → Bool
  | .connectEvent d ty => d == fd && ty == ConnectType.Close
  | _ => false

/-! ## The timer queue -/

/-- Modelled from the spec: one `TimerEntry` of the timer queue (the `Timer` class is not
under src/): target descriptor, deadline and liveness flag; `id` is the handle that
`addTimer` returns and `AbstractSocket::timer()` holds. -/
structure Timer where
  id : Nat
  userData : Socket
  deadline : Nat
  live : Bool
deriving DecidableEq, Repr

/-- Modelled from the spec: the `TimerQueue` (`m_timerManager`, class not under src/): the
pending entries by ascending deadline, ties in insertion order; the clock and the
configured timeout give the deadline of a new entry. -/
structure TimerManager where
  queue : List Timer
  nextId : Nat
  now : Nat
  timeout : Nat
deriving DecidableEq, Repr

/-- Modelled from the spec: the order of the `TimerQueue`, "by deadline ascending; ties broken
by insertion order": insertion after the entries of smaller or equal deadline. -/
def TimerManager.insertSorted (t : Timer) : List Timer → List Timer
  | [] => [t]
  | x :: xs => if x.deadline ≤ t.deadline then x :: insertSorted t xs else t :: x :: xs

/-- Modelled from the spec: `insert(descriptor, deadline) -> handle`
(`m_timerManager.addTimer(descriptor)`): a new live entry, due one timeout from now. -/
def TimerManager.addTimer (tm : TimerManager) (fd : Socket) : TimerManager × Nat :=
  ({ tm with
      queue := TimerManager.insertSorted
        { id := tm.nextId, userData := fd, deadline := tm.now + tm.timeout, live := true }
        tm.queue
      nextId := tm.nextId + 1 },
   tm.nextId)

/-- Modelled from the spec: `cancel(handle)` (`timer()->deleteLater()`): the entry is marked
invalid and stays in the queue. -/
def TimerManager.deleteLater (tm : TimerManager) (id : Nat) : TimerManager :=
  { tm with queue := tm.queue.map (fun t => if t.id = id then { t with live := false } else t) }

/-- `timer()->deleteLater()` on the handle a socket holds; a socket that was never given
a timer (a listener) has none to cancel. -/
def TimerManager.deleteLaterOpt (tm : TimerManager) : Option Nat → TimerManager
  | none => tm
  | some id => tm.deleteLater id

/-- Modelled from the spec: the loop of `popExpired`: cancelled entries at the front are
discarded; a live front entry is popped when it is due (`deadline <= now`). -/
def TimerManager.popExpired (now : Nat) : List Timer → List Timer × Option Socket
  | [] => ([], none)
  | t :: rest =>
    if !t.live then popExpired now rest
    else if t.deadline ≤ now then (rest, some t.userData)
    else (t :: rest, none)

/-- Modelled from the spec: `popExpired(now) -> descriptor or none`
(`m_timerManager.checkTop(socket)`). -/
def TimerManager.checkTop (tm : TimerManager) : TimerManager × Option Socket :=
  ({ tm with queue := (TimerManager.popExpired tm.now tm.queue).1 },
   (TimerManager.popExpired tm.now tm.queue).2)

/-- The handle `id` names a live entry of the queue. -/
def TimerManager.isLive (tm : TimerManager) (id : Nat) : Bool :=
  tm.queue.any (fun t => t.id == id && t.live)

/-! ## Sockets, registry, interest set -/

/-- Modelled from the spec: the `Connection` state that webserver.cpp reads and writes
through `AbstractSocket` (class not under src/): `descriptor()`, `isListening()`,
`sslEnable()`, the request counter `times()` / `addTimes()`, and the timer handle
`timer()` / `setTimer()`. -/
structure AbstractSocket where
  descriptor : Socket
  isListening : Bool
  sslEnable : Bool
  times : Int
  timer : Option Nat
deriving DecidableEq, Repr

/-- What `listener->accept()` hands back (`SocketInfo`, of which `eventHandler` reads the
descriptor `std::get<0>`), and whether the socket object built from it
(`new SslSocket(info)` / `new TcpSocket(info)`) answers `isValid()` in `acceptConnection`. -/
structure SocketInfo where
  descriptor : Socket
  connectValid : Bool
deriving DecidableEq, Repr

/-- One entry of the `EventList` that `m_epoll->epoll` returns: the readiness flags and the
descriptor. `accepts` is the environment's part: what successive calls of
`listener->accept()` return while this entry is handled (an exhausted list counts as an
invalid descriptor). -/
structure EpollEvent where
  events : Nat
  fd : Socket
  accepts : List SocketInfo
deriving DecidableEq, Repr

/-- What the build leaves open: the flag masks `ERROR_EVENT` and `CLOSE_EVENT` (macros of
epoll.h) and the static `AbstractSocket::isValid(Socket)`; none of them is under src/. -/
structure Backend where
  ERROR_EVENT : Nat
  CLOSE_EVENT : Nat
  isValid : Socket → Bool

/-- The map `m_connections` (`std::unordered_map<Socket, std::shared_ptr<AbstractSocket>>`):
descriptor to socket object; an object is named by its index in `WebServer.sockets`. -/
abbrev Connections := List (Socket × Nat)

/-- The call `m_connections.find(socket)`. -/
def Connections.find (m : Connections) (fd : Socket) : Option Nat :=
  match m with
  | [] => none
  | c :: rest => if c.1 = fd then some c.2 else Connections.find rest fd

/-- The call `m_connections.insert(Connection(fd, ptr))`: `unordered_map::insert` leaves an
existing entry of that key in place. -/
def Connections.insert (m : Connections) (fd : Socket) (ptr : Nat) : Connections :=
  if (Connections.find m fd).isSome then m else m ++ [(fd, ptr)]

/-- The call `m_connections.erase(it)` for the iterator found for `fd` (keys of an
`unordered_map` are unique). -/
def Connections.erase (m : Connections) (fd : Socket) : Connections :=
  m.filter (fun c => c.1 ≠ fd)

/-- Keys of the registry. -/
def Connections.keys (m : Connections) : List Socket := m.map (fun c => c.1)

/-- Modelled from the spec: `addInterest(descriptor)` (`m_epoll->addConnection`, class
`Epoll` not under src/). -/
def Epoll.addConnection (e : List Socket) (fd : Socket) : List Socket :=
  if fd ∈ e then e else e ++ [fd]

/-- Modelled from the spec: `removeInterest(descriptor)` (`m_epoll->removeConnection`). -/
def Epoll.removeConnection (e : List Socket) (fd : Socket) : List Socket :=
  e.filter (fun d => d ≠ fd)

/-! ## Configuration (webserver.h) -/

/-- The configuration members of `WebServer` as webserver.h declares them (their default
member initialisers are in `Config.default`). -/
structure Config where
  m_isLoaded : Bool
  m_runnable : Bool
  m_timeout : Int
  m_maxRequest : Int
  m_interval : Int × Int
deriving DecidableEq, Repr

/-- A freshly constructed `WebServer`: the default member initialisers of webserver.h. -/
def Config.default : Config :=
  { m_isLoaded := true, m_runnable := true, m_timeout := 3000, m_maxRequest := 10,
    m_interval := (0, 500 * 1000) }

/-- The setter `setMaxRequests(int num)`. -/
def Config.setMaxRequests (c : Config) (num : Int) : Config :=
  { c with m_maxRequest := if num > 0 then num else 10 }

/-- The getter `maxRequests()`. -/
def Config.maxRequests (c : Config) : Int := c.m_maxRequest

/-- The setter `setTimeout(int microSecond)`. -/
def Config.setTimeout (c : Config) (microSecond : Int) : Config :=
  { c with m_timeout := microSecond }

/-- The getter `timeout()`. -/
def Config.timeout (c : Config) : Int := c.m_timeout

/-- The getter `interval()`. -/
def Config.interval (c : Config) : Int := c.m_interval.2

/-! ## The server state (webserver.cpp) -/

/-- The state of a `WebServer` as webserver.cpp uses it. `sockets` is the heap of socket
objects (a `shared_ptr<AbstractSocket>` is an index into it), `m_pool` the sessions
enqueued and not yet completed (each holds the pointer of its connection), `log` the
effects so far. `m_maxTimes` is the cap `session` compares `times()` with; webserver.cpp
uses it without a declaration in webserver.h, which declares the cap as `m_maxRequest`. -/
structure WebServer where
  m_isLoaded : Bool
  m_maxTimes : Int
  sockets : List AbstractSocket
  m_connections : Connections
  m_epoll : List Socket
  m_timerManager : TimerManager
  m_pool : List Nat
  log : List Effect
deriving DecidableEq, Repr

/-- The server after construction: no connection, empty interest set, empty timer queue;
`isLoaded` is the outcome of the platform's socket initialisation. -/
def WebServer.init (isLoaded : Bool) (maxTimes : Int) (timeout : Nat) : WebServer :=
  { m_isLoaded := isLoaded, m_maxTimes := maxTimes, sockets := [], m_connections := [],
    m_epoll := [],
    m_timerManager := { queue := [], nextId := 0, now := 0, timeout := timeout },
    m_pool := [], log := [] }

/-- The call `m_handler(&event)` and the transport calls: the effect is appended. -/
def WebServer.emit (s : WebServer) (e : Effect) : WebServer :=
  { s with log := s.log ++ [e] }

/-- Timer handle of the socket object `ptr`. -/
def WebServer.timerOf (s : WebServer) (ptr : Nat) : Option Nat :=
  match s.sockets[ptr]? with
  | none => none
  | some c => c.timer

/-- `WebServer::release(socket)`. -/
def WebServer.release (s : WebServer) (socket : Socket) : WebServer :=
  let s1 := { s with m_epoll := Epoll.removeConnection s.m_epoll socket }
  match Connections.find s1.m_connections socket with
  | none => s1
  | some ptr =>
    let s2 := s1.emit (.connectEvent socket .Close)
    { s2 with
        m_timerManager := s2.m_timerManager.deleteLaterOpt (s2.timerOf ptr)
        m_connections := Connections.erase s2.m_connections socket }

/-- `WebServer::listen(hostName, port, sslEnable)`. `sslAvailable` is
`SslSocket::isSslAvailable()`; `listened` is the descriptor of the new `TcpSocket` when
`socket->listen(...)` succeeds, `none` when it fails. -/
def WebServer.listen (s : WebServer) (hostName port : String) (sslEnable : Bool)
    (sslAvailable : Bool) (listened : Option Socket) : WebServer :=
  if !s.m_isLoaded then
    s.emit (.exceptionEvent .SocketLoadFailed "")
  else if sslEnable && !sslAvailable then
    s.emit (.exceptionEvent .ListenFailed
      ("Listen " ++ hostName ++ ":" ++ port ++ " failed, SSL is not available.\n"))
  else
    match listened with
    | none =>
      s.emit (.exceptionEvent .ListenFailed
        ("Listen " ++ hostName ++ ":" ++ port ++ " failed, please rerun with an administrator.\n"))
    | some fd =>
      { s with
          sockets := s.sockets ++
            [{ descriptor := fd, isListening := true, sslEnable := sslEnable, times := 0,
               timer := none }]
          m_connections := Connections.insert s.m_connections fd s.sockets.length
          m_epoll := Epoll.addConnection s.m_epoll fd }

/-- The lambda `acceptConnection` of `eventHandler`, applied to the socket object built from
`info` (`ssl` says which class). -/
def WebServer.acceptConnection (s : WebServer) (ssl : Bool) (info : SocketInfo) : WebServer :=
  if !info.connectValid then s
  else
    let s1 := s.emit (.connectEvent info.descriptor .Accpet)
    let tm := s1.m_timerManager.addTimer info.descriptor
    { s1 with
        sockets := s1.sockets ++
          [{ descriptor := info.descriptor, isListening := false, sslEnable := ssl, times := 0,
             timer := some tm.2 }]
        m_timerManager := tm.1
        m_connections := Connections.insert s1.m_connections info.descriptor s1.sockets.length
        m_epoll := Epoll.addConnection s1.m_epoll info.descriptor }

/-- The accept loop of `eventHandler`:
`while(AbstractSocket::isValid(std::get<0>((info = listener->accept()))))`. -/
def WebServer.acceptLoop (B : Backend) (ssl : Bool) (s : WebServer) :
    List SocketInfo → WebServer
  | [] => s
  | info :: rest =>
    if B.isValid info.descriptor then acceptLoop B ssl (s.acceptConnection ssl info) rest
    else s

/-- Body of the loop `for(const auto &item : list)` of `eventHandler`. -/
def WebServer.handleItem (B : Backend) (s : WebServer) (item : EpollEvent) : WebServer :=
  if item.events = 0 then s
  else
    match Connections.find s.m_connections item.fd with
    | none => { s with m_epoll := Epoll.removeConnection s.m_epoll item.fd }
    | some ptr =>
      if item.events &&& B.ERROR_EVENT ≠ 0 ∨ item.events &&& B.CLOSE_EVENT ≠ 0 then
        s.release item.fd
      else
        match s.sockets[ptr]? with
        | none => s
        | some c =>
          if c.isListening then s.acceptLoop B c.sslEnable item.accepts
          else { s with m_pool := s.m_pool ++ [ptr] }

/-- `WebServer::eventHandler(list)`. -/
def WebServer.eventHandler (B : Backend) (s : WebServer) (list : List EpollEvent) : WebServer :=
  list.foldl (WebServer.handleItem B) s

/-- What the environment decides during one session: the request the parser makes of the
bytes read, the response the service dispatcher fills in, the return value of the i-th
`write` on the transport, whether the file stream opened, and the `gcount` of each
`stream.read` until `eof`. -/
structure SessionEnv where
  request : HttpRequest
  response : HttpResponse
  writeResult : Nat → Int
  streamGood : Bool
  reads : List Nat

/-- The loop `while(!stream.eof())` of `sendFile`; `i` counts the writes already made in
this session. -/
def WebServer.sendLoop (fd : Socket) (writeResult : Nat → Int) :
    List Nat → Nat → WebServer → WebServer × Bool
  | [], _, s => (s, true)
  | g :: rest, i, s =>
    let s1 := s.emit (.write fd (.chunk g) (writeResult i))
    if writeResult i ≤ 0 then (s1, false)
    else sendLoop fd writeResult rest (i + 1) s1

/-- `WebServer::sendFile(stream, socket)`; the socket pointer is never null here. -/
def WebServer.sendFile (s : WebServer) (fd : Socket) (env : SessionEnv) : WebServer × Bool :=
  if !env.streamGood then (s, false)
  else WebServer.sendLoop fd env.writeResult env.reads 1 s

/-- The call `f` on the socket object `ptr`. -/
def WebServer.modifySocket (s : WebServer) (ptr : Nat) (f : AbstractSocket → AbstractSocket) :
    WebServer :=
  { s with sockets := s.sockets.modify f ptr }

/-- Lines 199-208 of `WebServer::session`, for the socket object `c` at `connect`: the request
is valid; the counter is incremented, the service dispatcher fills the response, and the
timer of the connection is cancelled. -/
def WebServer.serviced (s : WebServer) (connect : Nat) (c : AbstractSocket) : WebServer :=
  -- connect->addTimes()
  let s1 := s.modifySocket connect (fun o => { o with times := o.times + 1 })
  -- m_services->service(httpRequest.get(), httpResponse.get())
  let s2 := s1.emit (.service c.descriptor)
  -- connect->timer()->deleteLater()
  { s2 with m_timerManager := s2.m_timerManager.deleteLaterOpt c.timer }

/-- Lines 199-216 of `WebServer::session`: after the service call the connection is either
released (with `Connection: close` set on the response) or given a new timer; `c.times + 1`
is `connect->times()` after `addTimes()`. Returns the state and the response to send. -/
def WebServer.settle (s : WebServer) (connect : Nat) (c : AbstractSocket) (env : SessionEnv) :
    WebServer × HttpResponse :=
  let s3 := s.serviced connect c
  -- if(!httpRequest->isKeepAlive() || connect->times() > m_maxTimes)
  if !env.request.isKeepAlive || decide (c.times + 1 > s.m_maxTimes) then
    (s3.release c.descriptor, env.response.setRawHeader "Connection" "close")
  else
    let tm := s3.m_timerManager.addTimer c.descriptor
    ({ s3 with m_timerManager := tm.1 }.modifySocket connect
        (fun o => { o with timer := some tm.2 }),
     env.response)

/-- Lines 218-230 of `WebServer::session`: the response is written, and a file body is
streamed after it when the write went through. -/
def WebServer.send (s : WebServer) (fd : Socket) (httpResponse : HttpResponse)
    (env : SessionEnv) : WebServer :=
  -- connect->write(response)
  let s1 := s.emit (.write fd (.response httpResponse) (env.writeResult 0))
  if env.writeResult 0 ≤ 0 then s1
  else if httpResponse.bodyType = BodyType.File ∧ env.request.method = "GET" then
    (s1.sendFile fd env).1
  else s1

/-- `WebServer::session(connect)` from the point where the request is valid. -/
def WebServer.respond (s : WebServer) (connect : Nat) (c : AbstractSocket) (env : SessionEnv) :
    WebServer :=
  (s.settle connect c env).1.send c.descriptor (s.settle connect c env).2 env

/-- `WebServer::session(connect)`: `connect` is the pointer the task holds. -/
def WebServer.session (s : WebServer) (connect : Nat) (env : SessionEnv) : WebServer :=
  match s.sockets[connect]? with
  | none => s
  | some c =>
    let s1 := s.emit (.read c.descriptor)
    if !env.request.isValid then s1.release c.descriptor
    else s1.respond connect c env

/-- A worker takes the `i`-th enqueued session off the queue and runs it to completion. -/
def WebServer.complete (s : WebServer) (i : Nat) (env : SessionEnv) : WebServer :=
  match s.m_pool[i]? with
  | none => s
  | some ptr => { s with m_pool := s.m_pool.eraseIdx i }.session ptr env

/-- The sweep of `exec`: `while(m_timerManager.checkTop(socket)) this->release(socket);`,
with `fuel` bounding the number of iterations. -/
def WebServer.sweepFuel : Nat → WebServer → WebServer
  | 0, s => s
  | fuel + 1, s =>
    match s.m_timerManager.checkTop with
    | (tm, none) => { s with m_timerManager := tm }
    | (tm, some socket) => sweepFuel fuel ({ s with m_timerManager := tm }.release socket)

/-- The sweep of `exec`: every iteration pops an entry, so the length of the queue bounds
the iterations. -/
def WebServer.sweep (s : WebServer) : WebServer :=
  WebServer.sweepFuel (s.m_timerManager.queue.length + 1) s

/-- One iteration of the loop of `exec`: the readiness batch, then the sweep. -/
def WebServer.execIteration (B : Backend) (s : WebServer) (list : List EpollEvent) : WebServer :=
  (s.eventHandler B list).sweep

/-- The clock moves on to `now` (time only goes forward). -/
def WebServer.tick (s : WebServer) (now : Nat) : WebServer :=
  { s with m_timerManager := { s.m_timerManager with now := max s.m_timerManager.now now } }

/-- The effect is a write on a transport. -/
def Effect.isAnyWrite : Effect → Bool
  | .write _ _ _ => true
  | _ => false

/-- The effect is a write that returned a value `<= 0`. -/
def Effect.failedWrite : Effect → Bool
  | .write _ _ r => decide (r ≤ 0)
  | _ => false

/-- The effects that the step from `s` to `t` added to the log. -/
def WebServer.effectsSince (t s : WebServer) : List Effect := t.log.drop s.log.length

/-- Descriptor of the socket object `ptr`. -/
def WebServer.descriptorAt (s : WebServer) (ptr : Nat) : Option Socket :=
  match s.sockets[ptr]? with
  | none => none
  | some c => some c.descriptor

/-- Number of sessions enqueued and not yet completed for descriptor `fd`. -/
def WebServer.inFlight (s : WebServer) (fd : Socket) : Nat :=
  (s.m_pool.filter (fun ptr => s.descriptorAt ptr == some fd)).length

/-! ## A small run of the server, for evaluating the model -/

/-- A backend for the examples: error mask 8, close mask 16, positive descriptors valid. -/
def exampleBackend : Backend :=
  { ERROR_EVENT := 8, CLOSE_EVENT := 16, isValid := fun fd => decide (0 < fd) }

/-- A keep-alive GET request that the parser accepts. -/
def keepAliveGet : HttpRequest := { isValid := true, isKeepAlive := true, method := "GET" }

/-- A response with a text body and no header set by the handler. -/
def plainResponse : HttpResponse := { rawHeaders := [], bodyType := .PlainText, filePath := "" }

/-- A response whose body is a file. -/
def fileResponse : HttpResponse :=
  { rawHeaders := [], bodyType := .File, filePath := "index.html" }

/-- A session in which every write goes through. -/
def goodSession : SessionEnv :=
  { request := keepAliveGet, response := plainResponse, writeResult := fun _ => 10,
    streamGood := true, reads := [] }

/-- A session in which the write of the response returns 0. -/
def brokenSession : SessionEnv :=
  { request := keepAliveGet, response := plainResponse, writeResult := fun _ => 0,
    streamGood := true, reads := [] }

/-- A session streaming a file of three chunks whose second chunk write returns -1. -/
def brokenFileSession : SessionEnv :=
  { request := keepAliveGet, response := fileResponse,
    writeResult := fun i => if i = 2 then -1 else 10,
    streamGood := true, reads := [4096, 4096, 100] }

/-- A session whose bytes the parser rejects. -/
def malformedSession : SessionEnv :=
  { request := { isValid := false, isKeepAlive := true, method := "" },
    response := plainResponse, writeResult := fun _ => 10, streamGood := true, reads := [] }

/-- A readiness entry with only the readable flag (1) for descriptor `fd`. -/
def readable (fd : Socket) : EpollEvent := { events := 1, fd := fd, accepts := [] }

/-- A server with cap 2 listening on descriptor 3. -/
def listeningServer : WebServer :=
  (WebServer.init true 2 3000).listen "0.0.0.0" "8080" false true (some 3)

/-- The listener was readable and `accept` yielded descriptor 5: registry 3 and 5. -/
def acceptedServer : WebServer :=
  listeningServer.eventHandler exampleBackend
    [{ events := 1, fd := 3, accepts := [{ descriptor := 5, connectValid := true }] }]

/-- Descriptor 5 was readable: its session is enqueued. -/
def dispatchedServer : WebServer :=
  acceptedServer.eventHandler exampleBackend [readable 5]

/-- The first request of descriptor 5 was served and its second session is enqueued. -/
def secondDispatch : WebServer :=
  (dispatchedServer.complete 0 goodSession).eventHandler exampleBackend [readable 5]

/-- The second request of descriptor 5 was served and its third session is enqueued. -/
def thirdDispatch : WebServer :=
  (secondDispatch.complete 0 goodSession).eventHandler exampleBackend [readable 5]

/-- The socket object of descriptor 5 when it was accepted. -/
def acceptedSocket : AbstractSocket :=
  { descriptor := 5, isListening := false, sslEnable := false, times := 0, timer := some 0 }

/-- No write after a failed one: in a list of effects, a write that returned `<= 0` is the last effect. -/
def FailLast (l : List Effect) : Prop :=
  ∀ pre e post, l = pre ++ e :: post → e.failedWrite = true → post = []

/-! ## The reactor as a step relation, and its invariants -/

/-- One step of the server: a `listen` call, a readiness batch handled by `eventHandler`,
a worker completing an enqueued session, the timeout sweep of `exec`, a call of `release`,
or time passing. The batches and everything else the environment decides are arbitrary. -/
inductive Step (B : Backend) : WebServer → WebServer → Prop where
  | listen (s : WebServer) (hostName port : String) (sslEnable sslAvailable : Bool)
      (listened : Option Socket) :
      Step B s (s.listen hostName port sslEnable sslAvailable listened)
  | eventHandler (s : WebServer) (list : List EpollEvent) : Step B s (s.eventHandler B list)
  | complete (s : WebServer) (i : Nat) (env : SessionEnv) : Step B s (s.complete i env)
  | sweep (s : WebServer) : Step B s s.sweep
  | release (s : WebServer) (socket : Socket) : Step B s (s.release socket)
  | tick (s : WebServer) (now : Nat) : Step B s (s.tick now)

/-- The states the server reaches from construction. -/
inductive Reachable (B : Backend) : WebServer → Prop where
  | init (isLoaded : Bool) (maxTimes : Int) (timeout : Nat) :
      Reachable B (WebServer.init isLoaded maxTimes timeout)
  | step (s t : WebServer) : Reachable B s → Step B s t → Reachable B t

/-- Every descriptor of the interest set is a key of the registry. -/
def InterestInRegistry (s : WebServer) : Prop :=
  ∀ fd ∈ s.m_epoll, fd ∈ Connections.keys s.m_connections

/-- The registry maps a descriptor to a socket object of that descriptor. -/
def RegistrySound (s : WebServer) : Prop :=
  ∀ fd ptr, Connections.find s.m_connections fd = some ptr → s.descriptorAt ptr = some fd

/-- Every enqueued session holds a socket object that exists. -/
def PoolInRange (s : WebServer) : Prop :=
  ∀ ptr ∈ s.m_pool, ptr < s.sockets.length

/-- Timer handles are handed out in increasing order: those in the queue and those held by
socket objects are below the next one. -/
def TimersBelowNext (s : WebServer) : Prop :=
  (∀ t ∈ s.m_timerManager.queue, t.id < s.m_timerManager.nextId) ∧
  (∀ c ∈ s.sockets, ∀ id, c.timer = some id → id < s.m_timerManager.nextId)

/-- The structural invariant of the server state. -/
structure WellFormed (s : WebServer) : Prop where
  interest : InterestInRegistry s
  registry : RegistrySound s
  pool : PoolInRange s
  timers : TimersBelowNext s

/-- A readiness batch that reports no descriptor twice and no descriptor whose session is
enqueued and not yet completed. -/
def QuietBatch (s : WebServer) (list : List EpollEvent) : Prop :=
  (list.map (fun item => item.fd)).Nodup ∧ ∀ item ∈ list, s.inFlight item.fd = 0

/-- The steps of the server when the multiplexer only returns quiet batches. -/
inductive QuietStep (B : Backend) : WebServer → WebServer → Prop where
  | listen (s : WebServer) (hostName port : String) (sslEnable sslAvailable : Bool)
      (listened : Option Socket) :
      QuietStep B s (s.listen hostName port sslEnable sslAvailable listened)
  | eventHandler (s : WebServer) (list : List EpollEvent) (quiet : QuietBatch s list) :
      QuietStep B s (s.eventHandler B list)
  | complete (s : WebServer) (i : Nat) (env : SessionEnv) : QuietStep B s (s.complete i env)
  | sweep (s : WebServer) : QuietStep B s s.sweep
  | tick (s : WebServer) (now : Nat) : QuietStep B s (s.tick now)

/-- The states reached from construction through quiet steps. -/
inductive QuietReachable (B : Backend) : WebServer → Prop where
  | init (isLoaded : Bool) (maxTimes : Int) (timeout : Nat) :
      QuietReachable B (WebServer.init isLoaded maxTimes timeout)
  | step (s t : WebServer) : QuietReachable B s → QuietStep B s t → QuietReachable B t

/-- From `s` to `t` the enqueued sessions are the same and the socket objects that existed
keep their descriptors. -/
def SameSessions (s t : WebServer) : Prop :=
  t.m_pool = s.m_pool ∧ s.sockets.length ≤ t.sockets.length ∧
  ∀ ptr, ptr < s.sockets.length → t.descriptorAt ptr = s.descriptorAt ptr

/-- Five connections pending on the listener (descriptors 4 to 8); the next `accept` yields
the invalid descriptor -1. -/
def fivePending : List SocketInfo :=
  [{ descriptor := 4, connectValid := true }, { descriptor := 5, connectValid := true },
   { descriptor := 6, connectValid := true }, { descriptor := 7, connectValid := true },
   { descriptor := 8, connectValid := true }]

/-- The readiness entry of the listener (descriptor 3, readable) with `fivePending`. -/
def listenerReady : EpollEvent :=
  { events := 1, fd := 3, accepts := fivePending ++ [{ descriptor := -1, connectValid := false }] }

/-- The socket object of the listener on descriptor 3. -/
def listenerSocket : AbstractSocket :=
  { descriptor := 3, isListening := true, sslEnable := false, times := 0, timer := none }

/-- The readiness entry of the listener (descriptor 3, readable) when `accept` yields the
valid descriptors 4 and 5 and then -1, and the socket object built for descriptor 5 does
not answer `isValid()`. -/
def halfValidReady : EpollEvent :=
  { events := 1, fd := 3,
    accepts := [{ descriptor := 4, connectValid := true },
                { descriptor := 5, connectValid := false },
                { descriptor := -1, connectValid := false }] }

/-! ## Registry and interest-set lemmas -/

theorem find_erase_self (m : Connections) (fd : Socket) :
    Connections.find (Connections.erase m fd) fd = none := by
  induction m with
  | nil => rfl
  | cons c rest ih =>
    by_cases h : c.1 = fd
    · simpa [Connections.erase, List.filter_cons, h] using ih
    · simpa [Connections.erase, List.filter_cons, h, Connections.find] using ih

theorem find_erase_ne (m : Connections) (fd other : Socket) (h : other ≠ fd) :
    Connections.find (Connections.erase m fd) other = Connections.find m other := by
  induction m with
  | nil => rfl
  | cons c rest ih =>
    obtain ⟨k, p⟩ := c
    by_cases hc : k = fd
    · subst hc
      have hne : ¬ k = other := fun e => h e.symm
      simpa [Connections.erase, List.filter_cons, Connections.find, hne] using ih
    · by_cases ho : k = other
      · subst ho
        simp [Connections.erase, List.filter_cons, hc, Connections.find]
      · simpa [Connections.erase, List.filter_cons, hc, Connections.find, ho] using ih

theorem find_append (m n : Connections) (fd : Socket) :
    Connections.find (m ++ n) fd =
      match Connections.find m fd with
      | some p => some p
      | none => Connections.find n fd := by
  induction m with
  | nil => simp [Connections.find]
  | cons c rest ih =>
    by_cases h : c.1 = fd
    · simp [Connections.find, h]
    · simpa [Connections.find, h] using ih

theorem find_isSome_iff_mem_keys (m : Connections) (fd : Socket) :
    (Connections.find m fd).isSome = true ↔ fd ∈ Connections.keys m := by
  induction m with
  | nil => simp [Connections.find, Connections.keys]
  | cons c rest ih =>
    by_cases h : c.1 = fd
    · simp [Connections.find, Connections.keys, h]
    · have h2 : ¬ fd = c.1 := fun e => h e.symm
      simpa [Connections.find, Connections.keys, h, h2] using ih

theorem find_insert_self (m : Connections) (fd : Socket) (p : Nat) :
    (Connections.find (Connections.insert m fd p) fd).isSome = true := by
  unfold Connections.insert
  by_cases h : (Connections.find m fd).isSome = true
  · simp [h]
  · simp only [h, if_false, Bool.false_eq_true]
    rw [find_append]
    cases hf : Connections.find m fd with
    | some q => simp [hf] at h
    | none => simp [Connections.find]

theorem find_insert_new (m : Connections) (fd : Socket) (p : Nat)
    (h : Connections.find m fd = none) :
    Connections.find (Connections.insert m fd p) fd = some p := by
  unfold Connections.insert
  simp only [h, Option.isSome_none, Bool.false_eq_true, if_false]
  rw [find_append, h]
  simp [Connections.find]

theorem find_insert_ne (m : Connections) (fd other : Socket) (p : Nat) (h : other ≠ fd) :
    Connections.find (Connections.insert m fd p) other = Connections.find m other := by
  unfold Connections.insert
  by_cases hs : (Connections.find m fd).isSome = true
  · simp [hs]
  · simp only [hs, if_false, Bool.false_eq_true]
    rw [find_append]
    cases hf : Connections.find m other with
    | some q => rfl
    | none =>
      have : ¬ fd = other := fun e => h e.symm
      simp [Connections.find, this]

theorem removeConnection_idem (e : List Socket) (fd : Socket) :
    Epoll.removeConnection (Epoll.removeConnection e fd) fd = Epoll.removeConnection e fd := by
  simp [Epoll.removeConnection, List.filter_filter]

theorem not_mem_removeConnection (e : List Socket) (fd : Socket) :
    fd ∉ Epoll.removeConnection e fd := by
  simp [Epoll.removeConnection]

theorem mem_removeConnection (e : List Socket) (fd d : Socket) :
    d ∈ Epoll.removeConnection e fd ↔ d ∈ e ∧ d ≠ fd := by
  simp [Epoll.removeConnection]

theorem mem_addConnection (e : List Socket) (fd d : Socket) :
    d ∈ Epoll.addConnection e fd ↔ d ∈ e ∨ d = fd := by
  unfold Epoll.addConnection
  by_cases h : fd ∈ e
  · simp only [h, if_true]
    constructor
    · exact Or.inl
    · rintro (h1 | h1)
      · exact h1
      · exact h1 ▸ h
  · simp [h]

/-! ## `release` -/

theorem release_of_missing (s : WebServer) (d : Socket)
    (h : Connections.find s.m_connections d = none) :
    s.release d = { s with m_epoll := Epoll.removeConnection s.m_epoll d } := by
  simp [WebServer.release, h]

theorem release_of_found (s : WebServer) (d : Socket) (ptr : Nat)
    (h : Connections.find s.m_connections d = some ptr) :
    s.release d =
      { s with
          m_epoll := Epoll.removeConnection s.m_epoll d
          log := s.log ++ [.connectEvent d .Close]
          m_timerManager := s.m_timerManager.deleteLaterOpt (s.timerOf ptr)
          m_connections := Connections.erase s.m_connections d } := by
  simp [WebServer.release, h, WebServer.emit, WebServer.timerOf]

theorem release_find_self (s : WebServer) (d : Socket) :
    Connections.find (s.release d).m_connections d = none := by
  cases h : Connections.find s.m_connections d with
  | none => rw [release_of_missing s d h]; exact h
  | some ptr => rw [release_of_found s d ptr h]; exact find_erase_self _ _

theorem release_epoll (s : WebServer) (d : Socket) :
    (s.release d).m_epoll = Epoll.removeConnection s.m_epoll d := by
  cases h : Connections.find s.m_connections d with
  | none => rw [release_of_missing s d h]
  | some ptr => rw [release_of_found s d ptr h]

theorem erase_of_find_none (m : Connections) (d : Socket)
    (h : Connections.find m d = none) : Connections.erase m d = m := by
  induction m with
  | nil => rfl
  | cons c rest ih =>
    by_cases hc : c.1 = d
    · simp [Connections.find, hc] at h
    · simp only [Connections.find, hc, if_false] at h
      have h1 := ih h
      unfold Connections.erase at h1 ⊢
      rw [List.filter_cons]
      simp only [ne_eq, hc, not_false_eq_true, decide_True, if_true]
      rw [h1]

theorem release_connections (s : WebServer) (d : Socket) :
    (s.release d).m_connections = Connections.erase s.m_connections d := by
  cases h : Connections.find s.m_connections d with
  | none =>
    rw [release_of_missing s d h]
    exact (erase_of_find_none _ _ h).symm
  | some ptr => rw [release_of_found s d ptr h]

theorem release_sockets (s : WebServer) (d : Socket) : (s.release d).sockets = s.sockets := by
  cases h : Connections.find s.m_connections d with
  | none => rw [release_of_missing s d h]
  | some ptr => rw [release_of_found s d ptr h]

theorem release_pool (s : WebServer) (d : Socket) : (s.release d).m_pool = s.m_pool := by
  cases h : Connections.find s.m_connections d with
  | none => rw [release_of_missing s d h]
  | some ptr => rw [release_of_found s d ptr h]

theorem release_log (s : WebServer) (d : Socket) :
    (s.release d).log =
      s.log ++ (if (Connections.find s.m_connections d).isSome then [.connectEvent d .Close]
                else []) := by
  cases h : Connections.find s.m_connections d with
  | none => rw [release_of_missing s d h]; simp
  | some ptr => rw [release_of_found s d ptr h]; simp

/-- C1. `WebServer::release` is idempotent: a second `release(d)` right after the first
changes nothing at all (same registry, same interest set, no further event), the two
calls together emit at most one Close event for `d`, and `release(d)` of a descriptor
that is not in the registry leaves the registry and the event stream as they were. -/
theorem release_idempotent (s : WebServer) (d : Socket) :
    (s.release d).release d = s.release d ∧
    ((s.release d).release d).m_connections = (s.release d).m_connections ∧
    ((s.release d).release d).m_epoll = (s.release d).m_epoll ∧
    ((s.release d).release d).log = (s.release d).log ∧
    (∃ emitted, ((s.release d).release d).log = s.log ++ emitted ∧
      (emitted.filter (Effect.isCloseOf d)).length ≤ 1) ∧
    (Connections.find s.m_connections d = none →
      (s.release d).m_connections = s.m_connections ∧ (s.release d).log = s.log) := by
  have h2 : (s.release d).release d = s.release d := by
    rw [release_of_missing (s.release d) d (release_find_self s d), release_epoll,
      ← release_epoll s d]
    have : Epoll.removeConnection (s.release d).m_epoll d = (s.release d).m_epoll := by
      rw [release_epoll, removeConnection_idem]
    rw [this]
  refine ⟨h2, by rw [h2], by rw [h2], by rw [h2], ?_, ?_⟩
  · rw [h2, release_log]
    refine ⟨_, rfl, ?_⟩
    split <;> simp [Effect.isCloseOf]
  · intro h
    rw [release_of_missing s d h]
    exact ⟨rfl, rfl⟩

/-- Witness of `release_idempotent`: descriptor 9 is not registered in a fresh server. -/
theorem release_idempotent_witness :
    Connections.find (WebServer.init true 10 3000).m_connections 9 = none ∧
    ((WebServer.init true 10 3000).release 9).m_connections = (WebServer.init true 10 3000).m_connections ∧
    ((WebServer.init true 10 3000).release 9).log = (WebServer.init true 10 3000).log :=
  ⟨by decide, (release_idempotent (WebServer.init true 10 3000) 9).2.2.2.2.2 (by decide)⟩

/-! ## Configuration -/

/-- C10. `setMaxRequests` normalisation: a fresh `WebServer` has `maxRequests() = 10`;
after `setMaxRequests(n)`, `maxRequests()` is `n` when `n > 0` and 10 when `n <= 0`; the
timeout, the interval and the two flags are untouched. -/
theorem setMaxRequests_normalises (c : Config) (n : Int) :
    Config.default.maxRequests = 10 ∧
    (0 < n → (c.setMaxRequests n).maxRequests = n) ∧
    (n ≤ 0 → (c.setMaxRequests n).maxRequests = 10) ∧
    (c.setMaxRequests n).timeout = c.timeout ∧
    (c.setMaxRequests n).interval = c.interval ∧
    (c.setMaxRequests n).m_interval = c.m_interval ∧
    (c.setMaxRequests n).m_isLoaded = c.m_isLoaded ∧
    (c.setMaxRequests n).m_runnable = c.m_runnable := by
  refine ⟨rfl, ?_, ?_, rfl, rfl, rfl, rfl, rfl⟩
  · intro h
    simp [Config.setMaxRequests, Config.maxRequests, h]
  · intro h
    have : ¬ n > 0 := not_lt.mpr h
    simp [Config.setMaxRequests, Config.maxRequests, this]

/-- Witness of `setMaxRequests_normalises`: 7 is kept, -3 becomes 10. -/
theorem setMaxRequests_normalises_witness :
    ((0 : Int) < 7 ∧ (Config.default.setMaxRequests 7).maxRequests = 7) ∧
    ((-3 : Int) ≤ 0 ∧ ((Config.default.setTimeout 50).setMaxRequests (-3)).maxRequests = 10) :=
  ⟨⟨by decide, (setMaxRequests_normalises Config.default 7).2.1 (by decide)⟩,
   ⟨by decide,
    (setMaxRequests_normalises (Config.default.setTimeout 50) (-3)).2.2.1 (by decide)⟩⟩

/-! ## Malformed request, error/closed readiness -/

/-- C7. Malformed request: when the parser rejects the bytes read, `WebServer::session`
releases the connection and ends: the only effects are the read and (when the connection was
still registered) the Close event, so the service dispatcher is not called and nothing is
written; the socket objects, hence the request counter, are unchanged. -/
theorem session_malformed (s : WebServer) (connect : Nat) (c : AbstractSocket) (env : SessionEnv)
    (hc : s.sockets[connect]? = some c) (hbad : env.request.isValid = false) :
    s.session connect env = (s.emit (.read c.descriptor)).release c.descriptor ∧
    Connections.find (s.session connect env).m_connections c.descriptor = none ∧
    c.descriptor ∉ (s.session connect env).m_epoll ∧
    (s.session connect env).sockets = s.sockets ∧
    (s.session connect env).sockets[connect]? = some c ∧
    (s.session connect env).log =
      s.log ++ [Effect.read c.descriptor] ++
        (if (Connections.find s.m_connections c.descriptor).isSome
         then [Effect.connectEvent c.descriptor ConnectType.Close] else []) ∧
    (∀ e ∈ (s.session connect env).log.drop s.log.length,
      ∀ fd, e.isService fd = false ∧ e.isWrite fd = false) := by
  have h : s.session connect env = (s.emit (.read c.descriptor)).release c.descriptor := by
    simp [WebServer.session, hc, hbad]
  have hlog : (s.session connect env).log =
      s.log ++ [Effect.read c.descriptor] ++
        (if (Connections.find s.m_connections c.descriptor).isSome
         then [Effect.connectEvent c.descriptor ConnectType.Close] else []) := by
    rw [h, release_log]; rfl
  refine ⟨h, ?_, ?_, ?_, ?_, hlog, ?_⟩
  · rw [h]; exact release_find_self _ _
  · rw [h, release_epoll]; exact not_mem_removeConnection _ _
  · rw [h, release_sockets]; rfl
  · rw [h, release_sockets]; exact hc
  · intro e he fd
    rw [hlog, List.append_assoc, List.drop_left] at he
    rcases List.mem_append.mp he with he | he
    · rw [List.mem_singleton.mp he]; exact ⟨rfl, rfl⟩
    · split at he
      · rw [List.mem_singleton.mp he]; exact ⟨rfl, rfl⟩
      · cases he

/-- C8. Error/closed precedence: for a readiness entry of a registered descriptor whose
flags include the error or the closed mask, `WebServer::eventHandler` does exactly
`release`: the connection leaves registry and interest set with one Close event, no
session is enqueued and no socket is accepted, whatever other flags are set. -/
theorem handleItem_error_closed (B : Backend) (s : WebServer) (item : EpollEvent) (ptr : Nat)
    (hreg : Connections.find s.m_connections item.fd = some ptr)
    (hflag : item.events &&& B.ERROR_EVENT ≠ 0 ∨ item.events &&& B.CLOSE_EVENT ≠ 0) :
    s.handleItem B item = s.release item.fd ∧
    Connections.find (s.handleItem B item).m_connections item.fd = none ∧
    item.fd ∉ (s.handleItem B item).m_epoll ∧
    (s.handleItem B item).m_pool = s.m_pool ∧
    (s.handleItem B item).sockets = s.sockets ∧
    (s.handleItem B item).log = s.log ++ [Effect.connectEvent item.fd ConnectType.Close] := by
  have hne : item.events ≠ 0 := by
    intro h0
    rcases hflag with h | h <;> exact h (by rw [h0]; exact Nat.zero_and _)
  have h : s.handleItem B item = s.release item.fd := by
    unfold WebServer.handleItem
    rw [if_neg hne, hreg]
    simp only
    rw [if_pos hflag]
  refine ⟨h, ?_, ?_, ?_, ?_, ?_⟩
  · rw [h]; exact release_find_self _ _
  · rw [h, release_epoll]; exact not_mem_removeConnection _ _
  · rw [h, release_pool]
  · rw [h, release_sockets]
  · rw [h, release_log, hreg]; rfl

/-! ## Sessions -/

theorem failLast_nil : FailLast [] := by
  intro pre e post h
  cases pre <;> cases h

theorem failLast_single (e : Effect) : FailLast [e] := by
  intro pre x post h _
  cases pre with
  | nil => simp at h; exact h.2
  | cons p ps => cases ps <;> simp at h

theorem failLast_cons (x : Effect) (l : List Effect) (hx : x.failedWrite = false)
    (hl : FailLast l) : FailLast (x :: l) := by
  intro pre e post h he
  cases pre with
  | nil =>
    simp at h
    rw [← h.1, hx] at he
    cases he
  | cons p ps =>
    simp at h
    exact hl ps e post h.2 he

theorem failLast_append (l m : List Effect) (hl : ∀ e ∈ l, e.failedWrite = false)
    (hm : FailLast m) : FailLast (l ++ m) := by
  induction l with
  | nil => simpa using hm
  | cons x xs ih =>
    exact failLast_cons x (xs ++ m) (hl x (List.mem_cons_self _ _))
      (ih (fun e he => hl e (List.mem_cons_of_mem _ he)))

theorem sendLoop_spec (fd : Socket) (w : Nat → Int) (reads : List Nat) :
    ∀ (i : Nat) (s : WebServer), ∃ extra,
      (WebServer.sendLoop fd w reads i s).1 = { s with log := s.log ++ extra } ∧
      FailLast extra ∧ ∀ e ∈ extra, e.isWrite fd = true := by
  induction reads with
  | nil =>
    intro i s
    exact ⟨[], by simp [WebServer.sendLoop], failLast_nil, by simp⟩
  | cons g rest ih =>
    intro i s
    by_cases hw : w i ≤ 0
    · refine ⟨[.write fd (.chunk g) (w i)], ?_, failLast_single _, ?_⟩
      · simp [WebServer.sendLoop, hw, WebServer.emit]
      · simp [Effect.isWrite]
    · obtain ⟨extra, h1, h2, h3⟩ := ih (i + 1) (s.emit (.write fd (.chunk g) (w i)))
      refine ⟨.write fd (.chunk g) (w i) :: extra, ?_, ?_, ?_⟩
      · simp only [WebServer.sendLoop, hw, if_false]
        rw [h1]
        simp [WebServer.emit]
      · exact failLast_cons _ _ (by simp [Effect.failedWrite, hw]) h2
      · intro e he
        rcases List.mem_cons.mp he with he | he
        · rw [he]; simp [Effect.isWrite]
        · exact h3 e he

theorem send_spec (s : WebServer) (fd : Socket) (r : HttpResponse) (env : SessionEnv) :
    ∃ extra,
      s.send fd r env =
        { s with log := s.log ++ (.write fd (.response r) (env.writeResult 0) :: extra) } ∧
      FailLast (.write fd (.response r) (env.writeResult 0) :: extra) ∧
      (∀ e ∈ extra, e.isWrite fd = true) ∧
      (env.writeResult 0 ≤ 0 → extra = []) := by
  by_cases hw : env.writeResult 0 ≤ 0
  · refine ⟨[], ?_, failLast_single _, by simp, fun _ => rfl⟩
    simp [WebServer.send, hw, WebServer.emit]
  · by_cases hf : r.bodyType = BodyType.File ∧ env.request.method = "GET"
    · by_cases hg : env.streamGood = true
      · obtain ⟨extra, h1, h2, h3⟩ := sendLoop_spec fd env.writeResult env.reads 1
          (s.emit (.write fd (.response r) (env.writeResult 0)))
        refine ⟨extra, ?_, failLast_cons _ _ (by simp [Effect.failedWrite, hw]) h2, h3,
          fun h => absurd h hw⟩
        simp only [WebServer.send, hw, if_false, hf, and_self, if_true, WebServer.sendFile, hg,
          Bool.not_true, Bool.false_eq_true]
        rw [h1]
        simp [WebServer.emit]
      · refine ⟨[], ?_, failLast_single _, by simp, fun _ => rfl⟩
        simp [WebServer.send, hw, hf, WebServer.sendFile, hg, WebServer.emit]
    · refine ⟨[], ?_, failLast_single _, by simp, fun _ => rfl⟩
      simp only [WebServer.send, hw, if_false, hf, WebServer.emit]

theorem rawHeader_setRawHeader (r : HttpResponse) (name value : String) :
    (r.setRawHeader name value).rawHeader name = some value := by
  unfold HttpResponse.setRawHeader HttpResponse.rawHeader
  simp only
  rw [List.find?_append]
  have : List.find? (fun h => h.1 == name)
      (List.filter (fun h => h.1 != name) r.rawHeaders) = none := by
    rw [List.find?_eq_none]
    intro x hx
    have := (List.mem_filter.mp hx).2
    simpa using this
  rw [this]
  simp

theorem session_valid_eq (s : WebServer) (connect : Nat) (c : AbstractSocket) (env : SessionEnv)
    (hc : s.sockets[connect]? = some c) (hvalid : env.request.isValid = true) :
    s.session connect env =
      ((s.emit (.read c.descriptor)).settle connect c env).1.send c.descriptor
        ((s.emit (.read c.descriptor)).settle connect c env).2 env := by
  simp [WebServer.session, hc, hvalid, WebServer.respond]

theorem settle_closing (s : WebServer) (connect : Nat) (c : AbstractSocket) (env : SessionEnv)
    (h : env.request.isKeepAlive = false ∨ s.m_maxTimes < c.times + 1) :
    s.settle connect c env =
      ((s.serviced connect c).release c.descriptor,
       env.response.setRawHeader "Connection" "close") := by
  unfold WebServer.settle
  have : (!env.request.isKeepAlive || decide (c.times + 1 > s.m_maxTimes)) = true := by
    rcases h with h | h
    · simp [h]
    · simp [h]
  simp only [this, if_true]

theorem settle_keeping (s : WebServer) (connect : Nat) (c : AbstractSocket) (env : SessionEnv)
    (hk : env.request.isKeepAlive = true) (h : c.times + 1 ≤ s.m_maxTimes) :
    s.settle connect c env =
      ({ s.serviced connect c with
          m_timerManager := ((s.serviced connect c).m_timerManager.addTimer c.descriptor).1
        }.modifySocket connect
          (fun o => { o with
            timer := some ((s.serviced connect c).m_timerManager.addTimer c.descriptor).2 }),
       env.response) := by
  unfold WebServer.settle
  have : (!env.request.isKeepAlive || decide (c.times + 1 > s.m_maxTimes)) = false := by
    simp [hk, not_lt.mpr h]
  simp only [this, Bool.false_eq_true, if_false]

theorem isLive_insertSorted (t : Timer) (q : List Timer) (id : Nat) :
    (TimerManager.insertSorted t q).any (fun x => x.id == id && x.live) =
      ((t.id == id && t.live) || q.any (fun x => x.id == id && x.live)) := by
  induction q with
  | nil => simp [TimerManager.insertSorted]
  | cons x xs ih =>
    unfold TimerManager.insertSorted
    split
    · simp only [List.any_cons, ih]
      cases (x.id == id && x.live) <;> cases (t.id == id && t.live) <;> simp
    · simp

theorem isLive_addTimer_new (tm : TimerManager) (fd : Socket) :
    (tm.addTimer fd).1.isLive (tm.addTimer fd).2 = true := by
  simp [TimerManager.addTimer, TimerManager.isLive, isLive_insertSorted]

theorem effectsSince_append (t s : WebServer) (l : List Effect) (h : t.log = s.log ++ l) :
    t.effectsSince s = l := by
  unfold WebServer.effectsSince
  rw [h, List.drop_left]

theorem session_closing_spec (s : WebServer) (connect : Nat) (c : AbstractSocket)
    (env : SessionEnv) (hc : s.sockets[connect]? = some c)
    (hvalid : env.request.isValid = true)
    (h : env.request.isKeepAlive = false ∨ s.m_maxTimes < c.times + 1) :
    ∃ extra,
      s.session connect env =
        { ((s.emit (.read c.descriptor)).serviced connect c).release c.descriptor with
          log := (((s.emit (.read c.descriptor)).serviced connect c).release c.descriptor).log ++
            (.write c.descriptor (.response (env.response.setRawHeader "Connection" "close"))
              (env.writeResult 0) :: extra) } ∧
      FailLast (.write c.descriptor (.response (env.response.setRawHeader "Connection" "close"))
              (env.writeResult 0) :: extra) ∧
      (∀ e ∈ extra, e.isWrite c.descriptor = true) ∧
      (env.writeResult 0 ≤ 0 → extra = []) := by
  rw [session_valid_eq s connect c env hc hvalid,
    settle_closing (s.emit (.read c.descriptor)) connect c env h]
  exact send_spec _ _ _ _

theorem session_keeping_spec (s : WebServer) (connect : Nat) (c : AbstractSocket)
    (env : SessionEnv) (hc : s.sockets[connect]? = some c)
    (hvalid : env.request.isValid = true)
    (hk : env.request.isKeepAlive = true) (h : c.times + 1 ≤ s.m_maxTimes) :
    ∃ extra,
      s.session connect env =
        { s with
          sockets := (s.sockets.modify (fun o => { o with times := o.times + 1 }) connect).modify
            (fun o => { o with timer := some s.m_timerManager.nextId }) connect
          m_timerManager := ((s.m_timerManager.deleteLaterOpt c.timer).addTimer c.descriptor).1
          log := s.log ++ (.read c.descriptor :: .service c.descriptor ::
            .write c.descriptor (.response env.response) (env.writeResult 0) :: extra) } ∧
      FailLast (.write c.descriptor (.response env.response) (env.writeResult 0) :: extra) ∧
      (∀ e ∈ extra, e.isWrite c.descriptor = true) ∧
      (env.writeResult 0 ≤ 0 → extra = []) := by
  rw [session_valid_eq s connect c env hc hvalid,
    settle_keeping (s.emit (.read c.descriptor)) connect c env hk h]
  obtain ⟨extra, h1, h2, h3, h4⟩ := send_spec
    ({ (s.emit (.read c.descriptor)).serviced connect c with
          m_timerManager := (((s.emit (.read c.descriptor)).serviced connect
            c).m_timerManager.addTimer c.descriptor).1
        }.modifySocket connect
          (fun o => { o with
            timer := some (((s.emit (.read c.descriptor)).serviced connect
              c).m_timerManager.addTimer c.descriptor).2 })) c.descriptor env.response env
  refine ⟨extra, ?_, h2, h3, h4⟩
  rw [h1]
  have hn : ∀ (tm : TimerManager) (o : Option Nat), (tm.deleteLaterOpt o).nextId = tm.nextId := by
    intro tm o; cases o <;> rfl
  simp [WebServer.serviced, WebServer.modifySocket, WebServer.emit, TimerManager.addTimer, hn]

theorem closing_state_facts (s : WebServer) (connect : Nat) (c : AbstractSocket) :
    (((s.emit (.read c.descriptor)).serviced connect c).release c.descriptor).log =
      s.log ++ ([Effect.read c.descriptor, Effect.service c.descriptor] ++
        (if (Connections.find s.m_connections c.descriptor).isSome
         then [Effect.connectEvent c.descriptor ConnectType.Close] else [])) ∧
    (((s.emit (.read c.descriptor)).serviced connect c).release c.descriptor).sockets =
      s.sockets.modify (fun o => { o with times := o.times + 1 }) connect := by
  constructor
  · rw [release_log]
    simp [WebServer.serviced, WebServer.modifySocket, WebServer.emit]
  · rw [release_sockets]
    simp [WebServer.serviced, WebServer.modifySocket, WebServer.emit]

/-- C2 (as the code has it). Keep-alive cap of `WebServer::session` for a valid request, with
`c.times + 1` the request counter after `addTimes()` and `N = m_maxTimes`: the counter is
incremented; when the request is not keep-alive or the counter exceeds `N` (first at request
`N + 1`), the connection is released and the response written carries `Connection: close`;
for every keep-alive request whose counter is at most `N` (the `N`-th included) the
connection stays in registry and interest set, no Close event is emitted, the response is
written as the handler left it, and a new live timer is armed. -/
theorem session_keepalive_cap (s : WebServer) (connect : Nat) (c : AbstractSocket)
    (env : SessionEnv) (hc : s.sockets[connect]? = some c)
    (hvalid : env.request.isValid = true) :
    ((s.session connect env).sockets[connect]?).map (fun o => o.times) = some (c.times + 1) ∧
    (env.request.isKeepAlive = false ∨ s.m_maxTimes < c.times + 1 →
      Connections.find (s.session connect env).m_connections c.descriptor = none ∧
      c.descriptor ∉ (s.session connect env).m_epoll ∧
      (∃ extra, (s.session connect env).effectsSince s =
        [Effect.read c.descriptor, Effect.service c.descriptor] ++
        (if (Connections.find s.m_connections c.descriptor).isSome
         then [Effect.connectEvent c.descriptor ConnectType.Close] else []) ++
        (Effect.write c.descriptor
          (.response (env.response.setRawHeader "Connection" "close")) (env.writeResult 0)
          :: extra) ∧
        ∀ e ∈ extra, e.isWrite c.descriptor = true) ∧
      (env.response.setRawHeader "Connection" "close").rawHeader "Connection" = some "close") ∧
    (env.request.isKeepAlive = true → c.times + 1 ≤ s.m_maxTimes →
      (s.session connect env).m_connections = s.m_connections ∧
      (s.session connect env).m_epoll = s.m_epoll ∧
      (∃ extra, (s.session connect env).effectsSince s =
        Effect.read c.descriptor :: Effect.service c.descriptor ::
        Effect.write c.descriptor (.response env.response) (env.writeResult 0) :: extra ∧
        ∀ e ∈ extra, e.isWrite c.descriptor = true) ∧
      (s.session connect env).timerOf connect = some s.m_timerManager.nextId ∧
      (s.session connect env).m_timerManager.isLive s.m_timerManager.nextId = true) := by
  have hn : ∀ (tm : TimerManager) (o : Option Nat), (tm.deleteLaterOpt o).nextId = tm.nextId := by
    intro tm o; cases o <;> rfl
  refine ⟨?_, ?_, ?_⟩
  · by_cases h : env.request.isKeepAlive = false ∨ s.m_maxTimes < c.times + 1
    · obtain ⟨extra, h1, -⟩ := session_closing_spec s connect c env hc hvalid h
      rw [h1]
      simp only
      rw [(closing_state_facts s connect c).2]
      simp [hc]
    · have hk : env.request.isKeepAlive = true := by
        cases hb : env.request.isKeepAlive
        · exact absurd (Or.inl hb) h
        · rfl
      have hle : c.times + 1 ≤ s.m_maxTimes := not_lt.mp (fun hh => h (Or.inr hh))
      obtain ⟨extra, h1, -⟩ := session_keeping_spec s connect c env hc hvalid hk hle
      rw [h1]
      simp [hc]
  · intro h
    obtain ⟨extra, h1, -, h3, -⟩ := session_closing_spec s connect c env hc hvalid h
    refine ⟨?_, ?_, ⟨extra, ?_, h3⟩, rawHeader_setRawHeader _ _ _⟩
    · rw [h1]; exact release_find_self _ _
    · rw [h1]
      show c.descriptor ∉ (WebServer.release _ _).m_epoll
      rw [release_epoll]; exact not_mem_removeConnection _ _
    · apply effectsSince_append
      rw [h1]
      simp only
      rw [(closing_state_facts s connect c).1]
      simp
  · intro hk hle
    obtain ⟨extra, h1, -, h3, -⟩ := session_keeping_spec s connect c env hc hvalid hk hle
    refine ⟨by rw [h1], by rw [h1], ⟨extra, ?_, h3⟩, ?_, ?_⟩
    · apply effectsSince_append
      rw [h1]
    · rw [h1]
      simp [WebServer.timerOf, hc]
    · rw [h1]
      have := isLive_addTimer_new (s.m_timerManager.deleteLaterOpt c.timer) c.descriptor
      simpa [TimerManager.addTimer, hn] using this

/-- Witness of `session_keepalive_cap`: with cap 2, the third keep-alive request of
descriptor 5 is answered with `Connection: close` and the connection is released. -/
theorem session_keepalive_cap_witness :
    thirdDispatch.sockets[1]? = some { acceptedSocket with times := 2, timer := some 2 } ∧
    goodSession.request.isValid = true ∧
    thirdDispatch.m_maxTimes < 2 + 1 ∧
    Connections.find (thirdDispatch.session 1 goodSession).m_connections 5 = none :=
  ⟨by decide, rfl, by decide,
   ((session_keepalive_cap thirdDispatch 1 { acceptedSocket with times := 2, timer := some 2 }
      goodSession (by decide) rfl).2.1 (Or.inr (by decide))).1⟩

/-- C2, counterexample to the cap at the N-th request: with `m_maxTimes = 2`, the second
valid keep-alive request of descriptor 5 brings the counter to 2, and the session neither
releases the connection nor sets `Connection: close` on the response. -/
theorem keepalive_cap_counterexample :
    secondDispatch.m_maxTimes = 2 ∧
    goodSession.request.isValid = true ∧ goodSession.request.isKeepAlive = true ∧
    ((secondDispatch.session 1 goodSession).sockets[1]?).map (fun o => o.times) = some 2 ∧
    Connections.find (secondDispatch.session 1 goodSession).m_connections 5 = some 1 ∧
    5 ∈ (secondDispatch.session 1 goodSession).m_epoll ∧
    (secondDispatch.session 1 goodSession).effectsSince secondDispatch =
      [Effect.read 5, Effect.service 5, Effect.write 5 (.response plainResponse) 10] ∧
    plainResponse.rawHeader "Connection" = none := by
  decide

/-- C3 (as the code has it). Transport write failure in `WebServer::session` (valid request):
a write that returns `<= 0`, be it the response write or a chunk write of `sendFile`, is the
last effect of the session, so no further write is made; when the response write fails it is
the only write. The failure itself releases nothing: the connection is out of the registry and
the interest set exactly when it was released before the write (request not keep-alive, or
counter above the cap); a keep-alive connection within the cap stays registered, with its
new timer live. -/
theorem session_write_failure (s : WebServer) (connect : Nat) (c : AbstractSocket)
    (env : SessionEnv) (hc : s.sockets[connect]? = some c)
    (hvalid : env.request.isValid = true) :
    (∀ pre e post, (s.session connect env).effectsSince s = pre ++ e :: post →
      e.failedWrite = true → post = []) ∧
    (env.writeResult 0 ≤ 0 →
      ∃ pre r, (s.session connect env).effectsSince s =
          pre ++ [Effect.write c.descriptor (.response r) (env.writeResult 0)] ∧
        ∀ e ∈ pre, e.isAnyWrite = false) ∧
    (env.request.isKeepAlive = false ∨ s.m_maxTimes < c.times + 1 →
      Connections.find (s.session connect env).m_connections c.descriptor = none ∧
      c.descriptor ∉ (s.session connect env).m_epoll) ∧
    (env.request.isKeepAlive = true → c.times + 1 ≤ s.m_maxTimes →
      (s.session connect env).m_connections = s.m_connections ∧
      (s.session connect env).m_epoll = s.m_epoll ∧
      (s.session connect env).timerOf connect = some s.m_timerManager.nextId ∧
      (s.session connect env).m_timerManager.isLive s.m_timerManager.nextId = true) := by
  have hn : ∀ (tm : TimerManager) (o : Option Nat), (tm.deleteLaterOpt o).nextId = tm.nextId := by
    intro tm o; cases o <;> rfl
  refine ⟨?_, ?_, ?_, ?_⟩
  · by_cases h : env.request.isKeepAlive = false ∨ s.m_maxTimes < c.times + 1
    · obtain ⟨extra, h1, h2, -, -⟩ := session_closing_spec s connect c env hc hvalid h
      have he : (s.session connect env).effectsSince s =
          ([Effect.read c.descriptor, Effect.service c.descriptor] ++
            (if (Connections.find s.m_connections c.descriptor).isSome
             then [Effect.connectEvent c.descriptor ConnectType.Close] else [])) ++
          (Effect.write c.descriptor
            (.response (env.response.setRawHeader "Connection" "close")) (env.writeResult 0)
            :: extra) := by
        apply effectsSince_append
        rw [h1]
        simp only
        rw [(closing_state_facts s connect c).1]
        simp
      rw [he]
      refine failLast_append _ _ ?_ h2
      intro e hmem
      rcases List.mem_append.mp hmem with hm | hm
      · simp at hm
        rcases hm with hm | hm <;> rw [hm] <;> rfl
      · split at hm
        · rw [List.mem_singleton.mp hm]; rfl
        · cases hm
    · have hk : env.request.isKeepAlive = true := by
        cases hb : env.request.isKeepAlive
        · exact absurd (Or.inl hb) h
        · rfl
      have hle : c.times + 1 ≤ s.m_maxTimes := not_lt.mp (fun hh => h (Or.inr hh))
      obtain ⟨extra, h1, h2, -, -⟩ := session_keeping_spec s connect c env hc hvalid hk hle
      have he : (s.session connect env).effectsSince s =
          Effect.read c.descriptor :: Effect.service c.descriptor ::
          Effect.write c.descriptor (.response env.response) (env.writeResult 0) :: extra := by
        apply effectsSince_append
        rw [h1]
      rw [he]
      exact failLast_cons _ _ rfl (failLast_cons _ _ rfl h2)
  · intro hw
    by_cases h : env.request.isKeepAlive = false ∨ s.m_maxTimes < c.times + 1
    · obtain ⟨extra, h1, -, -, h4⟩ := session_closing_spec s connect c env hc hvalid h
      refine ⟨[Effect.read c.descriptor, Effect.service c.descriptor] ++
            (if (Connections.find s.m_connections c.descriptor).isSome
             then [Effect.connectEvent c.descriptor ConnectType.Close] else []),
            env.response.setRawHeader "Connection" "close", ?_, ?_⟩
      · apply effectsSince_append
        rw [h1, h4 hw]
        simp only
        rw [(closing_state_facts s connect c).1]
        simp
      · intro e hmem
        rcases List.mem_append.mp hmem with hm | hm
        · simp at hm
          rcases hm with hm | hm <;> rw [hm] <;> rfl
        · split at hm
          · rw [List.mem_singleton.mp hm]; rfl
          · cases hm
    · have hk : env.request.isKeepAlive = true := by
        cases hb : env.request.isKeepAlive
        · exact absurd (Or.inl hb) h
        · rfl
      have hle : c.times + 1 ≤ s.m_maxTimes := not_lt.mp (fun hh => h (Or.inr hh))
      obtain ⟨extra, h1, -, -, h4⟩ := session_keeping_spec s connect c env hc hvalid hk hle
      refine ⟨[Effect.read c.descriptor, Effect.service c.descriptor], env.response, ?_, ?_⟩
      · apply effectsSince_append
        rw [h1, h4 hw]
        simp
      · intro e hm
        simp at hm
        rcases hm with hm | hm <;> rw [hm] <;> rfl
  · intro h
    obtain ⟨extra, h1, -⟩ := session_closing_spec s connect c env hc hvalid h
    constructor
    · rw [h1]; exact release_find_self _ _
    · rw [h1]
      show c.descriptor ∉ (WebServer.release _ _).m_epoll
      rw [release_epoll]; exact not_mem_removeConnection _ _
  · intro hk hle
    obtain ⟨extra, h1, -⟩ := session_keeping_spec s connect c env hc hvalid hk hle
    refine ⟨by rw [h1], by rw [h1], ?_, ?_⟩
    · rw [h1]
      simp [WebServer.timerOf, hc]
    · rw [h1]
      have := isLive_addTimer_new (s.m_timerManager.deleteLaterOpt c.timer) c.descriptor
      simpa [TimerManager.addTimer, hn] using this

/-- Witness of `session_write_failure`: the first keep-alive request of descriptor 5 with a
response write that returns 0; the registry is as before the session. -/
theorem session_write_failure_witness :
    dispatchedServer.sockets[1]? = some acceptedSocket ∧
    brokenSession.request.isValid = true ∧
    brokenSession.request.isKeepAlive = true ∧
    acceptedSocket.times + 1 ≤ dispatchedServer.m_maxTimes ∧
    brokenSession.writeResult 0 ≤ 0 ∧
    (dispatchedServer.session 1 brokenSession).m_connections = dispatchedServer.m_connections :=
  ⟨by decide, rfl, rfl, by decide, by decide,
   ((session_write_failure dispatchedServer 1 acceptedSocket brokenSession (by decide)
      rfl).2.2.2 rfl (by decide)).1⟩

/-- C3, counterexample to the release on a write failure: a keep-alive request of descriptor 5
within the cap whose response write returns 0, and one whose second file chunk write
returns -1: the session stops writing, and descriptor 5 is still in the registry and in the
interest set, with its re-armed timer (handle 1) live. -/
theorem write_failure_counterexample :
    brokenSession.writeResult 0 = 0 ∧
    (dispatchedServer.session 1 brokenSession).effectsSince dispatchedServer =
      [Effect.read 5, Effect.service 5, Effect.write 5 (.response plainResponse) 0] ∧
    Connections.find (dispatchedServer.session 1 brokenSession).m_connections 5 = some 1 ∧
    5 ∈ (dispatchedServer.session 1 brokenSession).m_epoll ∧
    (dispatchedServer.session 1 brokenSession).m_timerManager.isLive 1 = true ∧
    (dispatchedServer.session 1 brokenFileSession).effectsSince dispatchedServer =
      [Effect.read 5, Effect.service 5, Effect.write 5 (.response fileResponse) 10,
       Effect.write 5 (.chunk 4096) 10, Effect.write 5 (.chunk 4096) (-1)] ∧
    Connections.find (dispatchedServer.session 1 brokenFileSession).m_connections 5 = some 1 ∧
    5 ∈ (dispatchedServer.session 1 brokenFileSession).m_epoll := by
  decide

/-- Witness of `session_malformed`: a rejected request on descriptor 5. -/
theorem session_malformed_witness :
    dispatchedServer.sockets[1]? = some acceptedSocket ∧
    malformedSession.request.isValid = false ∧
    (dispatchedServer.session 1 malformedSession).log =
      dispatchedServer.log ++ [Effect.read acceptedSocket.descriptor] ++
        (if (Connections.find dispatchedServer.m_connections acceptedSocket.descriptor).isSome
         then [Effect.connectEvent acceptedSocket.descriptor ConnectType.Close] else []) :=
  ⟨by decide, rfl,
   (session_malformed dispatchedServer 1 acceptedSocket malformedSession (by decide)
      rfl).2.2.2.2.2.1⟩

/-- Witness of `handleItem_error_closed`: the listener (descriptor 3) is reported readable and
closed (flags 1 + 16) with a connection waiting to be accepted. -/
theorem handleItem_error_closed_witness :
    Connections.find acceptedServer.m_connections 3 = some 0 ∧
    ((17 : Nat) &&& exampleBackend.ERROR_EVENT ≠ 0 ∨ (17 : Nat) &&& exampleBackend.CLOSE_EVENT ≠ 0) ∧
    acceptedServer.handleItem exampleBackend
        { events := 17, fd := 3, accepts := [{ descriptor := 7, connectValid := true }] } =
      acceptedServer.release 3 :=
  ⟨by decide, by decide,
   (handleItem_error_closed exampleBackend acceptedServer
      { events := 17, fd := 3, accepts := [{ descriptor := 7, connectValid := true }] } 0
      (by decide) (by decide)).1⟩

/-! ## The structural invariant is kept by every operation -/

theorem wf_init (isLoaded : Bool) (maxTimes : Int) (timeout : Nat) :
    WellFormed (WebServer.init isLoaded maxTimes timeout) := by
  refine ⟨?_, ?_, ?_, ?_, ?_⟩ <;> intro a <;> simp [WebServer.init, Connections.find]

theorem wf_congr (s t : WebServer) (h : WellFormed s) (h1 : t.m_epoll = s.m_epoll)
    (h2 : t.m_connections = s.m_connections) (h3 : t.sockets = s.sockets)
    (h4 : t.m_pool = s.m_pool) (h5 : t.m_timerManager = s.m_timerManager) : WellFormed t := by
  obtain ⟨a, b, c, d⟩ := h
  refine ⟨?_, ?_, ?_, ?_⟩
  · unfold InterestInRegistry at a ⊢; rw [h1, h2]; exact a
  · unfold RegistrySound WebServer.descriptorAt at b ⊢; rw [h2, h3]; exact b
  · unfold PoolInRange at c ⊢; rw [h3, h4]; exact c
  · unfold TimersBelowNext at d ⊢; rw [h3, h5]; exact d

theorem wf_emit (s : WebServer) (e : Effect) (h : WellFormed s) : WellFormed (s.emit e) :=
  wf_congr s _ h rfl rfl rfl rfl rfl

theorem deleteLaterOpt_nextId (tm : TimerManager) (o : Option Nat) :
    (tm.deleteLaterOpt o).nextId = tm.nextId := by
  cases o <;> rfl

theorem deleteLaterOpt_ids (tm : TimerManager) (o : Option Nat) (n : Nat)
    (h : ∀ t ∈ tm.queue, t.id < n) : ∀ t ∈ (tm.deleteLaterOpt o).queue, t.id < n := by
  cases o with
  | none => exact h
  | some id =>
    intro t ht
    simp only [TimerManager.deleteLaterOpt, TimerManager.deleteLater, List.mem_map] at ht
    obtain ⟨x, hx, rfl⟩ := ht
    split
    · exact h x hx
    · exact h x hx

theorem mem_insertSorted (t x : Timer) (q : List Timer) :
    x ∈ TimerManager.insertSorted t q ↔ x = t ∨ x ∈ q := by
  induction q with
  | nil => simp [TimerManager.insertSorted]
  | cons y ys ih =>
    unfold TimerManager.insertSorted
    split
    · simp only [List.mem_cons, ih]
      constructor
      · rintro (h | h | h)
        · exact Or.inr (Or.inl h)
        · exact Or.inl h
        · exact Or.inr (Or.inr h)
      · rintro (h | h | h)
        · exact Or.inr (Or.inl h)
        · exact Or.inl h
        · exact Or.inr (Or.inr h)
    · simp

theorem wf_release (s : WebServer) (d : Socket) (h : WellFormed s) : WellFormed (s.release d) := by
  obtain ⟨a, b, c, e⟩ := h
  refine ⟨?_, ?_, ?_, ?_⟩
  · intro fd hfd
    rw [release_epoll, mem_removeConnection] at hfd
    rw [← find_isSome_iff_mem_keys, release_connections, find_erase_ne _ _ _ hfd.2,
      find_isSome_iff_mem_keys]
    exact a fd hfd.1
  · intro fd ptr hf
    rw [release_connections] at hf
    by_cases hd : fd = d
    · rw [hd, find_erase_self] at hf; cases hf
    · rw [find_erase_ne _ _ _ hd] at hf
      have := b fd ptr hf
      unfold WebServer.descriptorAt at this ⊢
      rw [release_sockets]; exact this
  · intro ptr hp
    rw [release_pool] at hp
    rw [release_sockets]; exact c ptr hp
  · cases hf : Connections.find s.m_connections d with
    | none => rw [release_of_missing s d hf]; exact e
    | some ptr =>
      rw [release_of_found s d ptr hf]
      refine ⟨?_, ?_⟩
      · simp only [deleteLaterOpt_nextId]
        exact deleteLaterOpt_ids _ _ _ e.1
      · simp only [deleteLaterOpt_nextId]
        exact e.2

theorem descriptorAt_append (s : WebServer) (l : List AbstractSocket) (ptr : Nat) (fd : Socket)
    (h : s.descriptorAt ptr = some fd) :
    WebServer.descriptorAt { s with sockets := s.sockets ++ l } ptr = some fd := by
  unfold WebServer.descriptorAt at h ⊢
  cases hs : s.sockets[ptr]? with
  | none => simp [hs] at h
  | some c =>
    have hlt : ptr < s.sockets.length := by
      rcases Nat.lt_or_ge ptr s.sockets.length with hl | hl
      · exact hl
      · rw [List.getElem?_eq_none hl] at hs; cases hs
    simp only [hs] at h
    simp only [List.getElem?_append_left hlt, hs]
    exact h

theorem descriptorAt_new (s : WebServer) (c : AbstractSocket) :
    WebServer.descriptorAt { s with sockets := s.sockets ++ [c] } s.sockets.length =
      some c.descriptor := by
  simp [WebServer.descriptorAt]

theorem sound_insert_append (s : WebServer) (c : AbstractSocket) (b : RegistrySound s) :
    ∀ fd ptr,
      Connections.find (Connections.insert s.m_connections c.descriptor s.sockets.length) fd =
        some ptr →
      WebServer.descriptorAt { s with sockets := s.sockets ++ [c] } ptr = some fd := by
  intro fd ptr hf
  by_cases hd : fd = c.descriptor
  · subst hd
    cases hold : Connections.find s.m_connections c.descriptor with
    | none =>
      rw [find_insert_new _ _ _ hold] at hf
      cases hf
      exact descriptorAt_new s c
    | some q =>
      have : Connections.insert s.m_connections c.descriptor s.sockets.length = s.m_connections := by
        simp [Connections.insert, hold]
      rw [this] at hf
      exact descriptorAt_append s _ _ _ (b _ _ hf)
  · rw [find_insert_ne _ _ _ _ hd] at hf
    exact descriptorAt_append s _ _ _ (b _ _ hf)

theorem interest_insert_add (e : List Socket) (m : Connections) (d : Socket) (p : Nat)
    (a : ∀ fd ∈ e, fd ∈ Connections.keys m) :
    ∀ fd ∈ Epoll.addConnection e d, fd ∈ Connections.keys (Connections.insert m d p) := by
  intro fd hfd
  rw [← find_isSome_iff_mem_keys]
  by_cases hd : fd = d
  · rw [hd]; exact find_insert_self _ _ _
  · rw [find_insert_ne _ _ _ _ hd, find_isSome_iff_mem_keys]
    rcases (mem_addConnection _ _ _).mp hfd with h | h
    · exact a fd h
    · exact absurd h hd

theorem wf_listen (s : WebServer) (hostName port : String) (sslEnable sslAvailable : Bool)
    (listened : Option Socket) (h : WellFormed s) :
    WellFormed (s.listen hostName port sslEnable sslAvailable listened) := by
  unfold WebServer.listen
  split
  · exact wf_emit _ _ h
  · split
    · exact wf_emit _ _ h
    · cases listened with
      | none => exact wf_emit _ _ h
      | some fd =>
        obtain ⟨a, b, c, e⟩ := h
        refine ⟨?_, ?_, ?_, ?_⟩
        · exact interest_insert_add _ _ _ _ a
        · exact sound_insert_append s
            { descriptor := fd, isListening := true, sslEnable := sslEnable, times := 0,
              timer := none } b
        · intro ptr hp
          have := c ptr hp
          simp only [List.length_append, List.length_singleton]
          omega
        · refine ⟨e.1, ?_⟩
          intro x hx id hid
          simp only [List.mem_append, List.mem_singleton] at hx
          rcases hx with hx | hx
          · exact e.2 x hx id hid
          · rw [hx] at hid; cases hid

theorem wf_acceptConnection (s : WebServer) (ssl : Bool) (info : SocketInfo)
    (h : WellFormed s) : WellFormed (s.acceptConnection ssl info) := by
  unfold WebServer.acceptConnection
  split
  · exact h
  · obtain ⟨a, b, c, e⟩ := h
    refine ⟨?_, ?_, ?_, ?_⟩
    · exact interest_insert_add _ _ _ _ a
    · exact sound_insert_append s
        { descriptor := info.descriptor, isListening := false, sslEnable := ssl, times := 0,
          timer := some s.m_timerManager.nextId } b
    · intro ptr hp
      have := c ptr hp
      simp only [WebServer.emit, List.length_append, List.length_singleton]
      omega
    · refine ⟨?_, ?_⟩
      · intro t ht
        simp only [WebServer.emit, TimerManager.addTimer, mem_insertSorted] at ht
        simp only [WebServer.emit, TimerManager.addTimer]
        rcases ht with ht | ht
        · rw [ht]; exact Nat.lt_succ_self _
        · exact Nat.lt_succ_of_lt (e.1 t ht)
      · intro x hx id hid
        simp only [WebServer.emit, TimerManager.addTimer, List.mem_append,
          List.mem_singleton] at hx ⊢
        rcases hx with hx | hx
        · exact Nat.lt_succ_of_lt (e.2 x hx id hid)
        · rw [hx] at hid
          simp only [Option.some.injEq] at hid
          rw [← hid]; exact Nat.lt_succ_self _

theorem wf_acceptLoop (B : Backend) (ssl : Bool) (infos : List SocketInfo) :
    ∀ s : WebServer, WellFormed s → WellFormed (s.acceptLoop B ssl infos) := by
  induction infos with
  | nil => intro s h; exact h
  | cons info rest ih =>
    intro s h
    unfold WebServer.acceptLoop
    split
    · exact ih _ (wf_acceptConnection s ssl info h)
    · exact h

theorem wf_handleItem (B : Backend) (s : WebServer) (item : EpollEvent) (h : WellFormed s) :
    WellFormed (s.handleItem B item) := by
  unfold WebServer.handleItem
  split
  · exact h
  · split
    · obtain ⟨a, b, c, e⟩ := h
      refine ⟨?_, b, c, e⟩
      intro fd hfd
      exact a fd ((mem_removeConnection _ _ _).mp hfd).1
    · rename_i ptr hfind
      split
      · exact wf_release _ _ h
      · split
        · exact h
        · rename_i c hc
          split
          · exact wf_acceptLoop B _ _ _ h
          · obtain ⟨a, b, c1, e⟩ := h
            refine ⟨a, b, ?_, e⟩
            intro p hp
            simp only [List.mem_append, List.mem_singleton] at hp
            rcases hp with hp | hp
            · exact c1 p hp
            · rw [hp]
              rcases Nat.lt_or_ge ptr s.sockets.length with hl | hl
              · exact hl
              · rw [List.getElem?_eq_none hl] at hc; cases hc

theorem wf_eventHandler (B : Backend) (list : List EpollEvent) :
    ∀ s : WebServer, WellFormed s → WellFormed (s.eventHandler B list) := by
  induction list with
  | nil => intro s h; exact h
  | cons item rest ih =>
    intro s h
    exact ih _ (wf_handleItem B s item h)

theorem descriptorAt_modify (s : WebServer) (f : AbstractSocket → AbstractSocket) (n ptr : Nat)
    (hf : ∀ c, (f c).descriptor = c.descriptor) :
    WebServer.descriptorAt { s with sockets := s.sockets.modify f n } ptr = s.descriptorAt ptr := by
  unfold WebServer.descriptorAt
  by_cases hn : n = ptr
  · subst hn
    simp only [List.getElem?_modify_eq]
    cases s.sockets[n]? with
    | none => rfl
    | some c => simp [hf]
  · simp only [List.getElem?_modify_ne _ _ hn]

theorem mem_modify (l : List AbstractSocket) (f : AbstractSocket → AbstractSocket) (n : Nat)
    (x : AbstractSocket) (hx : x ∈ l.modify f n) : x ∈ l ∨ ∃ c ∈ l, x = f c := by
  obtain ⟨i, hi, rfl⟩ := List.mem_iff_getElem.mp hx
  rw [List.getElem_modify]
  have hi2 : i < l.length := by simpa using hi
  split
  · exact Or.inr ⟨l[i], List.getElem_mem _, rfl⟩
  · exact Or.inl (List.getElem_mem _)

theorem wf_serviced (s : WebServer) (connect : Nat) (c : AbstractSocket) (h : WellFormed s) :
    WellFormed (s.serviced connect c) := by
  obtain ⟨a, b, c1, e⟩ := h
  refine ⟨a, ?_, ?_, ?_, ?_⟩
  · intro fd ptr hf
    have := b fd ptr hf
    simp only [WebServer.serviced, WebServer.modifySocket, WebServer.emit]
    rw [← this]
    exact descriptorAt_modify s _ connect ptr (fun _ => rfl)
  · intro ptr hp
    simp only [WebServer.serviced, WebServer.modifySocket, WebServer.emit, List.length_modify]
    exact c1 ptr hp
  · simp only [WebServer.serviced, WebServer.modifySocket, WebServer.emit, deleteLaterOpt_nextId]
    exact deleteLaterOpt_ids _ _ _ e.1
  · intro x hx id hid
    simp only [WebServer.serviced, WebServer.modifySocket, WebServer.emit,
      deleteLaterOpt_nextId] at hx ⊢
    rcases mem_modify _ _ _ _ hx with hx | ⟨y, hy, rfl⟩
    · exact e.2 x hx id hid
    · exact e.2 y hy id hid

theorem wf_rearm (s : WebServer) (connect : Nat) (fd : Socket) (h : WellFormed s) :
    WellFormed ({ s with m_timerManager := (s.m_timerManager.addTimer fd).1 }.modifySocket connect
        (fun o => { o with timer := some (s.m_timerManager.addTimer fd).2 })) := by
  obtain ⟨a, b, c1, e⟩ := h
  refine ⟨a, ?_, ?_, ?_, ?_⟩
  · intro d ptr hf
    have := b d ptr hf
    simp only [WebServer.modifySocket]
    rw [← this]
    exact descriptorAt_modify _ _ connect ptr (fun _ => rfl)
  · intro ptr hp
    simp only [WebServer.modifySocket, List.length_modify]
    exact c1 ptr hp
  · intro t ht
    simp only [WebServer.modifySocket, TimerManager.addTimer, mem_insertSorted] at ht ⊢
    rcases ht with ht | ht
    · rw [ht]; exact Nat.lt_succ_self _
    · exact Nat.lt_succ_of_lt (e.1 t ht)
  · intro x hx id hid
    simp only [WebServer.modifySocket, TimerManager.addTimer] at hx ⊢
    rcases mem_modify _ _ _ _ hx with hx | ⟨y, hy, rfl⟩
    · exact Nat.lt_succ_of_lt (e.2 x hx id hid)
    · simp only [Option.some.injEq] at hid
      rw [← hid]; exact Nat.lt_succ_self _

theorem wf_log (s : WebServer) (l : List Effect) (h : WellFormed s) :
    WellFormed { s with log := l } :=
  wf_congr s _ h rfl rfl rfl rfl rfl

theorem wf_send (s : WebServer) (fd : Socket) (r : HttpResponse) (env : SessionEnv)
    (h : WellFormed s) : WellFormed (s.send fd r env) := by
  obtain ⟨extra, h1, -⟩ := send_spec s fd r env
  rw [h1]
  exact wf_log s _ h

theorem wf_settle (s : WebServer) (connect : Nat) (c : AbstractSocket) (env : SessionEnv)
    (h : WellFormed s) : WellFormed (s.settle connect c env).1 := by
  unfold WebServer.settle
  simp only
  split
  · exact wf_release _ _ (wf_serviced s connect c h)
  · exact wf_rearm _ connect c.descriptor (wf_serviced s connect c h)

theorem wf_session (s : WebServer) (connect : Nat) (env : SessionEnv) (h : WellFormed s) :
    WellFormed (s.session connect env) := by
  unfold WebServer.session
  split
  · exact h
  · rename_i c hc
    simp only
    split
    · exact wf_release _ _ (wf_emit s _ h)
    · exact wf_send _ _ _ _ (wf_settle _ connect c env (wf_emit s _ h))

theorem wf_complete (s : WebServer) (i : Nat) (env : SessionEnv) (h : WellFormed s) :
    WellFormed (s.complete i env) := by
  unfold WebServer.complete
  split
  · exact h
  · apply wf_session
    obtain ⟨a, b, c1, e⟩ := h
    refine ⟨a, b, ?_, e⟩
    intro p hp
    exact c1 p (List.mem_of_mem_eraseIdx hp)

theorem mem_popExpired (now : Nat) (q : List Timer) (x : Timer)
    (hx : x ∈ (TimerManager.popExpired now q).1) : x ∈ q := by
  induction q with
  | nil => simp [TimerManager.popExpired] at hx
  | cons t rest ih =>
    unfold TimerManager.popExpired at hx
    split at hx
    · exact List.mem_cons_of_mem _ (ih hx)
    · split at hx
      · exact List.mem_cons_of_mem _ hx
      · exact hx

theorem wf_checkTop (s : WebServer) (h : WellFormed s) :
    WellFormed { s with m_timerManager := s.m_timerManager.checkTop.1 } := by
  obtain ⟨a, b, c1, e⟩ := h
  refine ⟨a, b, c1, ?_, e.2⟩
  intro t ht
  exact e.1 t (mem_popExpired _ _ _ ht)

theorem wf_sweepFuel (fuel : Nat) : ∀ s : WebServer, WellFormed s → WellFormed (s.sweepFuel fuel) := by
  induction fuel with
  | zero => intro s h; exact h
  | succ n ih =>
    intro s h
    unfold WebServer.sweepFuel
    have hw := wf_checkTop s h
    cases hr : s.m_timerManager.checkTop with
    | mk tm r =>
      rw [hr] at hw
      cases r with
      | none => exact hw
      | some socket => exact ih _ (wf_release _ _ hw)

theorem wf_sweep (s : WebServer) (h : WellFormed s) : WellFormed s.sweep :=
  wf_sweepFuel _ s h

theorem wf_tick (s : WebServer) (now : Nat) (h : WellFormed s) : WellFormed (s.tick now) := by
  obtain ⟨a, b, c1, e⟩ := h
  exact ⟨a, b, c1, e⟩

theorem wf_step (B : Backend) (s t : WebServer) (h : WellFormed s) (st : Step B s t) :
    WellFormed t := by
  cases st with
  | listen => exact wf_listen _ _ _ _ _ _ h
  | eventHandler => exact wf_eventHandler B _ _ h
  | complete => exact wf_complete _ _ _ h
  | sweep => exact wf_sweep _ h
  | release => exact wf_release _ _ h
  | tick => exact wf_tick _ _ h

theorem wf_reachable (B : Backend) (s : WebServer)
    (h : Reachable B s) : WellFormed s := by
  induction h with
  | init => exact wf_init _ _ _
  | step s t _ st ih => exact wf_step B s t ih st

/-! ## Sessions in flight -/

theorem sameSessions_refl (s : WebServer) : SameSessions s s :=
  ⟨rfl, Nat.le_refl _, fun _ _ => rfl⟩

theorem sameSessions_trans (s t u : WebServer) (h1 : SameSessions s t) (h2 : SameSessions t u) :
    SameSessions s u := by
  refine ⟨h2.1.trans h1.1, Nat.le_trans h1.2.1 h2.2.1, ?_⟩
  intro ptr hp
  rw [h2.2.2 ptr (Nat.lt_of_lt_of_le hp h1.2.1), h1.2.2 ptr hp]

theorem sameSessions_of_eq (s t : WebServer) (h1 : t.m_pool = s.m_pool)
    (h2 : t.sockets = s.sockets) : SameSessions s t := by
  refine ⟨h1, by rw [h2], ?_⟩
  intro ptr _
  unfold WebServer.descriptorAt
  rw [h2]

theorem sameSessions_inFlight (s t : WebServer) (hp : PoolInRange s) (h : SameSessions s t)
    (fd : Socket) : t.inFlight fd = s.inFlight fd := by
  unfold WebServer.inFlight
  rw [h.1]
  congr 1
  apply List.filter_congr
  intro ptr hptr
  rw [h.2.2 ptr (hp ptr hptr)]

theorem sameSessions_release (s : WebServer) (d : Socket) : SameSessions s (s.release d) :=
  sameSessions_of_eq _ _ (release_pool s d) (release_sockets s d)

theorem sameSessions_append (s : WebServer) (l : List AbstractSocket) (t : WebServer)
    (h1 : t.m_pool = s.m_pool) (h2 : t.sockets = s.sockets ++ l) : SameSessions s t := by
  refine ⟨h1, by rw [h2]; simp, ?_⟩
  intro ptr hp
  unfold WebServer.descriptorAt
  rw [h2, List.getElem?_append_left hp]

theorem sameSessions_modify (s : WebServer) (f : AbstractSocket → AbstractSocket) (n : Nat)
    (hf : ∀ c, (f c).descriptor = c.descriptor) (t : WebServer)
    (h1 : t.m_pool = s.m_pool) (h2 : t.sockets = s.sockets.modify f n) : SameSessions s t := by
  refine ⟨h1, by rw [h2]; simp, ?_⟩
  intro ptr _
  have := descriptorAt_modify s f n ptr hf
  unfold WebServer.descriptorAt at this ⊢
  rw [h2]; exact this

theorem sameSessions_listen (s : WebServer) (hostName port : String)
    (sslEnable sslAvailable : Bool) (listened : Option Socket) :
    SameSessions s (s.listen hostName port sslEnable sslAvailable listened) := by
  unfold WebServer.listen
  split
  · exact sameSessions_of_eq _ _ rfl rfl
  · split
    · exact sameSessions_of_eq _ _ rfl rfl
    · cases listened with
      | none => exact sameSessions_of_eq _ _ rfl rfl
      | some fd => exact sameSessions_append s _ _ rfl rfl

theorem sameSessions_acceptConnection (s : WebServer) (ssl : Bool) (info : SocketInfo) :
    SameSessions s (s.acceptConnection ssl info) := by
  unfold WebServer.acceptConnection
  split
  · exact sameSessions_refl s
  · exact sameSessions_append s _ _ rfl rfl

theorem sameSessions_acceptLoop (B : Backend) (ssl : Bool) (infos : List SocketInfo) :
    ∀ s : WebServer, SameSessions s (s.acceptLoop B ssl infos) := by
  induction infos with
  | nil => intro s; exact sameSessions_refl s
  | cons info rest ih =>
    intro s
    unfold WebServer.acceptLoop
    split
    · exact sameSessions_trans _ _ _ (sameSessions_acceptConnection s ssl info) (ih _)
    · exact sameSessions_refl s

theorem sameSessions_serviced (s : WebServer) (connect : Nat) (c : AbstractSocket) :
    SameSessions s (s.serviced connect c) :=
  sameSessions_modify s (fun o => { o with times := o.times + 1 }) connect (fun _ => rfl) _
    rfl rfl

theorem sameSessions_settle (s : WebServer) (connect : Nat) (c : AbstractSocket)
    (env : SessionEnv) : SameSessions s (s.settle connect c env).1 := by
  unfold WebServer.settle
  simp only
  split
  · exact sameSessions_trans _ _ _ (sameSessions_serviced s connect c) (sameSessions_release _ _)
  · exact sameSessions_trans _ _ _ (sameSessions_serviced s connect c)
      (sameSessions_modify (s.serviced connect c)
        (fun o => { o with
          timer := some ((s.serviced connect c).m_timerManager.addTimer c.descriptor).2 })
        connect (fun _ => rfl) _ rfl rfl)

theorem sameSessions_send (s : WebServer) (fd : Socket) (r : HttpResponse) (env : SessionEnv) :
    SameSessions s (s.send fd r env) := by
  obtain ⟨extra, h1, -⟩ := send_spec s fd r env
  rw [h1]
  exact sameSessions_of_eq _ _ rfl rfl

theorem sameSessions_session (s : WebServer) (connect : Nat) (env : SessionEnv) :
    SameSessions s (s.session connect env) := by
  unfold WebServer.session
  split
  · exact sameSessions_refl s
  · rename_i c hc
    simp only
    split
    · exact sameSessions_trans _ _ _ (sameSessions_of_eq s (s.emit _) rfl rfl)
        (sameSessions_release _ _)
    · unfold WebServer.respond
      exact sameSessions_trans _ _ _ (sameSessions_of_eq s (s.emit _) rfl rfl)
        (sameSessions_trans _ _ _ (sameSessions_settle _ connect c env)
          (sameSessions_send _ _ _ _))

theorem sameSessions_sweepFuel (fuel : Nat) :
    ∀ s : WebServer, SameSessions s (s.sweepFuel fuel) := by
  induction fuel with
  | zero => intro s; exact sameSessions_refl s
  | succ n ih =>
    intro s
    unfold WebServer.sweepFuel
    cases hr : s.m_timerManager.checkTop with
    | mk tm r =>
      cases r with
      | none => exact sameSessions_of_eq _ _ rfl rfl
      | some socket =>
        exact sameSessions_trans _ _ _
          (sameSessions_trans _ _ _
            (sameSessions_of_eq s { s with m_timerManager := tm } rfl rfl)
            (sameSessions_release _ _))
          (ih _)

theorem handleItem_inFlight (B : Backend) (s : WebServer) (item : EpollEvent)
    (h : WellFormed s) :
    (∀ fd, fd ≠ item.fd → (s.handleItem B item).inFlight fd = s.inFlight fd) ∧
    (s.handleItem B item).inFlight item.fd ≤ s.inFlight item.fd + 1 := by
  have same : ∀ t, SameSessions s t →
      (∀ fd, fd ≠ item.fd → t.inFlight fd = s.inFlight fd) ∧
      t.inFlight item.fd ≤ s.inFlight item.fd + 1 := by
    intro t ht
    refine ⟨fun fd _ => sameSessions_inFlight s t h.pool ht fd, ?_⟩
    rw [sameSessions_inFlight s t h.pool ht]
    exact Nat.le_succ _
  unfold WebServer.handleItem
  split
  · exact same _ (sameSessions_refl s)
  · split
    · exact same _ (sameSessions_of_eq _ _ rfl rfl)
    · rename_i ptr hfind
      split
      · exact same _ (sameSessions_release _ _)
      · split
        · exact same _ (sameSessions_refl s)
        · rename_i c hc
          split
          · exact same _ (sameSessions_acceptLoop B _ _ s)
          · have hd : s.descriptorAt ptr = some item.fd := h.registry _ _ hfind
            have key : ∀ fd, WebServer.inFlight { s with m_pool := s.m_pool ++ [ptr] } fd =
                s.inFlight fd + (if item.fd = fd then 1 else 0) := by
              intro fd
              unfold WebServer.inFlight
              have e1 : ∀ p, WebServer.descriptorAt { s with m_pool := s.m_pool ++ [ptr] } p =
                  s.descriptorAt p := fun _ => rfl
              simp only [e1, List.filter_append, List.length_append, List.filter_cons,
                List.filter_nil, hd]
              by_cases hfd : item.fd = fd
              · simp [hfd]
              · simp [hfd]
            refine ⟨?_, ?_⟩
            · intro fd hfd
              rw [key fd, if_neg (fun e => hfd e.symm)]
              rfl
            · rw [key item.fd, if_pos rfl]

theorem eventHandler_quiet (B : Backend) (list : List EpollEvent) :
    ∀ s : WebServer, WellFormed s → (∀ fd, s.inFlight fd ≤ 1) →
      (list.map (fun item => item.fd)).Nodup → (∀ item ∈ list, s.inFlight item.fd = 0) →
      ∀ fd, (s.eventHandler B list).inFlight fd ≤ 1 := by
  induction list with
  | nil => intro s _ h _ _; exact h
  | cons item rest ih =>
    intro s hwf hle hnd hzero
    have hi := handleItem_inFlight B s item hwf
    rw [List.map_cons, List.nodup_cons] at hnd
    refine ih (s.handleItem B item) (wf_handleItem B s item hwf) ?_ hnd.2 ?_
    · intro fd
      by_cases hfd : fd = item.fd
      · rw [hfd]
        have := hzero item (List.mem_cons_self _ _)
        have := hi.2
        omega
      · rw [hi.1 fd hfd]; exact hle fd
    · intro it hit
      have hne : it.fd ≠ item.fd := by
        intro e
        exact hnd.1 (List.mem_map.mpr ⟨it, hit, e⟩)
      rw [hi.1 _ hne]
      exact hzero it (List.mem_cons_of_mem _ hit)

theorem complete_inFlight (s : WebServer) (i : Nat) (env : SessionEnv) (h : WellFormed s)
    (fd : Socket) : (s.complete i env).inFlight fd ≤ s.inFlight fd := by
  unfold WebServer.complete
  split
  · exact Nat.le_refl _
  · rename_i ptr hptr
    have hp : PoolInRange { s with m_pool := s.m_pool.eraseIdx i } := by
      intro p hp
      exact h.pool p (List.mem_of_mem_eraseIdx hp)
    rw [sameSessions_inFlight _ _ hp (sameSessions_session _ ptr env)]
    unfold WebServer.inFlight
    have e1 : ∀ p, WebServer.descriptorAt { s with m_pool := s.m_pool.eraseIdx i } p =
        s.descriptorAt p := fun _ => rfl
    simp only [e1]
    exact ((List.eraseIdx_sublist s.m_pool i).filter _).length_le

theorem quietReachable_reachable (B : Backend) (s : WebServer)
    (h : QuietReachable B s) : Reachable B s := by
  induction h with
  | init a b c => exact Reachable.init a b c
  | step s t _ st ih =>
    refine Reachable.step s t ih ?_
    cases st with
    | listen => exact Step.listen _ _ _ _ _ _
    | eventHandler => exact Step.eventHandler _ _
    | complete => exact Step.complete _ _ _
    | sweep => exact Step.sweep _
    | tick => exact Step.tick _ _

/-- C4 (as the code has it). Single-flight holds as far as the multiplexer provides it:
`WebServer::eventHandler` enqueues one session for every readable entry of a registered
connection and keeps no record of sessions in flight, so in every state reached through
batches that report no descriptor twice and no descriptor whose session is still enqueued,
every descriptor has at most one session enqueued and not yet completed. -/
theorem single_flight_quiet (B : Backend) (s : WebServer)
    (h : QuietReachable B s) : ∀ fd, s.inFlight fd ≤ 1 := by
  induction h with
  | init => intro fd; simp [WebServer.inFlight, WebServer.init]
  | step s t hs st ih =>
    have hwf : WellFormed s := wf_reachable B s
      (quietReachable_reachable B s hs)
    intro fd
    cases st with
    | listen hostName port sslEnable sslAvailable listened =>
      rw [sameSessions_inFlight s _ hwf.pool (sameSessions_listen s _ _ _ _ _)]
      exact ih fd
    | eventHandler list quiet => exact eventHandler_quiet B list s hwf ih quiet.1 quiet.2 fd
    | complete i env => exact Nat.le_trans (complete_inFlight s i env hwf fd) (ih fd)
    | sweep =>
      have hsw : SameSessions s s.sweep := sameSessions_sweepFuel _ s
      rw [sameSessions_inFlight s _ hwf.pool hsw]
      exact ih fd
    | tick now => exact ih fd

/-! ## The example run is a run of the server -/

theorem quiet_listeningServer : QuietReachable exampleBackend listeningServer :=
  QuietReachable.step _ _ (QuietReachable.init true 2 3000) (QuietStep.listen _ _ _ _ _ _)

theorem quiet_acceptedServer : QuietReachable exampleBackend acceptedServer :=
  QuietReachable.step _ _ quiet_listeningServer
    (QuietStep.eventHandler _ _ ⟨by decide, by decide⟩)

theorem quiet_dispatchedServer : QuietReachable exampleBackend dispatchedServer :=
  QuietReachable.step _ _ quiet_acceptedServer
    (QuietStep.eventHandler _ _ ⟨by decide, by decide⟩)

theorem reachable_acceptedServer : Reachable exampleBackend acceptedServer :=
  quietReachable_reachable _ _ quiet_acceptedServer

theorem reachable_dispatchedServer : Reachable exampleBackend dispatchedServer :=
  quietReachable_reachable _ _ quiet_dispatchedServer

/-- Witness of `single_flight_quiet`: after one quiet dispatch descriptor 5 has one session
in flight. -/
theorem single_flight_quiet_witness :
    QuietReachable exampleBackend dispatchedServer ∧ dispatchedServer.inFlight 5 ≤ 1 :=
  ⟨quiet_dispatchedServer, single_flight_quiet exampleBackend dispatchedServer
    quiet_dispatchedServer 5⟩

/-- C4, counterexample to single-flight for arbitrary batches: descriptor 5 is reported
readable again while its session is still enqueued, or twice in one batch; either way
`eventHandler` enqueues a second session for it. -/
theorem single_flight_counterexample :
    Reachable exampleBackend
      (dispatchedServer.eventHandler exampleBackend [readable 5]) ∧
    dispatchedServer.m_pool = [1] ∧
    (dispatchedServer.eventHandler exampleBackend [readable 5]).m_pool = [1, 1] ∧
    (dispatchedServer.eventHandler exampleBackend [readable 5]).inFlight 5 = 2 ∧
    Reachable exampleBackend
      (acceptedServer.eventHandler exampleBackend [readable 5, readable 5]) ∧
    (acceptedServer.eventHandler exampleBackend [readable 5, readable 5]).inFlight 5 = 2 :=
  ⟨Reachable.step _ _ reachable_dispatchedServer (Step.eventHandler _ _), by decide, by decide,
   by decide, Reachable.step _ _ reachable_acceptedServer (Step.eventHandler _ _), by decide⟩

/-- C5. Interest-set invariant: in every state the server reaches from construction, by
`listen` calls that succeed or fail, by `eventHandler` on arbitrary batches (accept path,
ready descriptors that are not registered, error/close, dispatch), by `release`, by
completed sessions and by the timeout sweep, every descriptor registered with the
multiplexer is a key of the connection registry. -/
theorem interest_subset_registry (B : Backend) (s : WebServer)
    (h : Reachable B s) :
    ∀ fd ∈ s.m_epoll, fd ∈ Connections.keys s.m_connections :=
  (wf_reachable B s h).interest

/-- Witness of `interest_subset_registry`: the server after `listen` and one accepted
connection; descriptor 5 is in the interest set and in the registry. -/
theorem interest_subset_registry_witness :
    Reachable exampleBackend acceptedServer ∧ (5 : Socket) ∈ acceptedServer.m_epoll ∧
    (5 : Socket) ∈ Connections.keys acceptedServer.m_connections :=
  ⟨reachable_acceptedServer, by decide,
   interest_subset_registry exampleBackend acceptedServer reachable_acceptedServer 5
     (by decide)⟩

/-! ## The accept loop -/

theorem length_insertSorted (t : Timer) (q : List Timer) :
    (TimerManager.insertSorted t q).length = q.length + 1 := by
  induction q with
  | nil => rfl
  | cons x xs ih =>
    unfold TimerManager.insertSorted
    split
    · simp [ih]
    · simp

theorem acceptConnection_fresh (s : WebServer) (ssl : Bool) (info : SocketInfo)
    (hwf : WellFormed s) (hv : info.connectValid = true)
    (hfresh : Connections.find s.m_connections info.descriptor = none) :
    s.acceptConnection ssl info =
      { s with
        log := s.log ++ [Effect.connectEvent info.descriptor ConnectType.Accpet]
        sockets := s.sockets ++
          [{ descriptor := info.descriptor, isListening := false, sslEnable := ssl, times := 0,
             timer := some s.m_timerManager.nextId }]
        m_timerManager := (s.m_timerManager.addTimer info.descriptor).1
        m_connections := s.m_connections ++ [(info.descriptor, s.sockets.length)]
        m_epoll := s.m_epoll ++ [info.descriptor] } := by
  have hne : info.descriptor ∉ s.m_epoll := by
    intro hmem
    have := (find_isSome_iff_mem_keys _ _).mpr (hwf.interest _ hmem)
    rw [hfresh] at this
    cases this
  simp [WebServer.acceptConnection, hv, WebServer.emit, Connections.insert, hfresh,
    Epoll.addConnection, hne, TimerManager.addTimer]

theorem acceptLoop_spec (B : Backend) (ssl : Bool) (rest : List SocketInfo)
    (hrest : ∀ i, rest.head? = some i → B.isValid i.descriptor = false)
    (good : List SocketInfo) :
    ∀ s : WebServer, WellFormed s →
      (∀ i ∈ good, B.isValid i.descriptor = true ∧ i.connectValid = true) →
      (∀ i ∈ good, Connections.find s.m_connections i.descriptor = none) →
      (good.map (fun i => i.descriptor)).Nodup →
      (s.acceptLoop B ssl (good ++ rest)).m_connections =
        s.m_connections ++
          (good.enumFrom s.sockets.length).map (fun p => (p.2.descriptor, p.1)) ∧
      (s.acceptLoop B ssl (good ++ rest)).m_epoll =
        s.m_epoll ++ good.map (fun i => i.descriptor) ∧
      (s.acceptLoop B ssl (good ++ rest)).sockets =
        s.sockets ++ (good.enumFrom s.m_timerManager.nextId).map (fun p =>
          { descriptor := p.2.descriptor, isListening := false, sslEnable := ssl, times := 0,
            timer := some p.1 }) ∧
      (s.acceptLoop B ssl (good ++ rest)).log =
        s.log ++ good.map (fun i => Effect.connectEvent i.descriptor ConnectType.Accpet) ∧
      (s.acceptLoop B ssl (good ++ rest)).m_pool = s.m_pool ∧
      (s.acceptLoop B ssl (good ++ rest)).m_timerManager.nextId =
        s.m_timerManager.nextId + good.length ∧
      (s.acceptLoop B ssl (good ++ rest)).m_timerManager.now = s.m_timerManager.now ∧
      (s.acceptLoop B ssl (good ++ rest)).m_timerManager.timeout = s.m_timerManager.timeout ∧
      (s.acceptLoop B ssl (good ++ rest)).m_timerManager.queue.length =
        s.m_timerManager.queue.length + good.length ∧
      (∀ x, x ∈ (s.acceptLoop B ssl (good ++ rest)).m_timerManager.queue ↔
        x ∈ s.m_timerManager.queue ∨
        x ∈ (good.enumFrom s.m_timerManager.nextId).map (fun p =>
          { id := p.1, userData := p.2.descriptor,
            deadline := s.m_timerManager.now + s.m_timerManager.timeout, live := true })) := by
  induction good with
  | nil =>
    intro s _ _ _ _
    have h0 : s.acceptLoop B ssl ([] ++ rest) = s := by
      cases rest with
      | nil => rfl
      | cons r rs =>
        have := hrest r rfl
        simp [WebServer.acceptLoop, this]
    rw [h0]
    simp
  | cons g gs ih =>
    intro s hwf hgood hfresh hnd
    have hg := hgood g (List.mem_cons_self _ _)
    have hstep : s.acceptLoop B ssl (g :: gs ++ rest) =
        (s.acceptConnection ssl g).acceptLoop B ssl (gs ++ rest) := by
      simp [WebServer.acceptLoop, hg.1]
    have hacc := acceptConnection_fresh s ssl g hwf hg.2 (hfresh g (List.mem_cons_self _ _))
    rw [List.map_cons, List.nodup_cons] at hnd
    have hfresh1 : ∀ i ∈ gs,
        Connections.find (s.acceptConnection ssl g).m_connections i.descriptor = none := by
      intro i hi
      have hne : i.descriptor ≠ g.descriptor := by
        intro e
        exact hnd.1 (List.mem_map.mpr ⟨i, hi, e⟩)
      rw [hacc]
      simp only
      rw [find_append, hfresh i (List.mem_cons_of_mem _ hi)]
      simp [Connections.find, Ne.symm hne]
    obtain ⟨h1, h2, h3, h4, h5, h6, h7, h8, h9, h10⟩ :=
      ih (s.acceptConnection ssl g) (wf_acceptConnection s ssl g hwf)
        (fun i hi => hgood i (List.mem_cons_of_mem _ hi)) hfresh1 hnd.2
    rw [hstep]
    generalize (s.acceptConnection ssl g).acceptLoop B ssl (gs ++ rest) = t at *
    rw [hacc] at h1 h2 h3 h4 h5 h6 h7 h8 h9 h10
    simp only [List.length_append, List.length_singleton, TimerManager.addTimer,
      length_insertSorted] at h1 h2 h3 h4 h5 h6 h7 h8 h9 h10
    refine ⟨?_, ?_, ?_, ?_, h5, ?_, h7, h8, ?_, ?_⟩
    · rw [h1]; simp [List.enumFrom_cons]
    · rw [h2]; simp
    · rw [h3]; simp [List.enumFrom_cons]
    · rw [h4]; simp
    · rw [h6, List.length_cons]; omega
    · rw [h9, List.length_cons]; omega
    · intro x
      rw [h10 x, mem_insertSorted]
      simp only [List.enumFrom_cons, List.map_cons, List.mem_cons]
      constructor
      · rintro ((h | h) | h)
        · exact Or.inr (Or.inl h)
        · exact Or.inl h
        · exact Or.inr (Or.inr h)
      · rintro (h | h | h)
        · exact Or.inl (Or.inr h)
        · exact Or.inl (Or.inl h)
        · exact Or.inr h

theorem acceptLoop_filter (B : Backend) (ssl : Bool) (rest : List SocketInfo)
    (accepted : List SocketInfo) :
    ∀ s : WebServer, (∀ i ∈ accepted, B.isValid i.descriptor = true) →
      s.acceptLoop B ssl (accepted ++ rest) =
        s.acceptLoop B ssl (accepted.filter (fun i => i.connectValid) ++ rest) := by
  induction accepted with
  | nil => intro s _; rfl
  | cons g gs ih =>
    intro s hv
    have hg := hv g (List.mem_cons_self _ _)
    have hgs : ∀ i ∈ gs, B.isValid i.descriptor = true :=
      fun i hi => hv i (List.mem_cons_of_mem _ hi)
    cases hcv : g.connectValid with
    | false =>
      have hdrop : s.acceptConnection ssl g = s := by
        simp [WebServer.acceptConnection, hcv]
      simp only [List.cons_append, WebServer.acceptLoop, hg, if_true, hdrop, List.filter_cons,
        hcv, Bool.false_eq_true, if_false]
      exact ih s hgs
    | true =>
      simp only [List.cons_append, WebServer.acceptLoop, hg, if_true, List.filter_cons, hcv]
      exact ih _ hgs

/-- C6 (as the code has it). Accept-loop drain: in a reachable state, for a readiness entry
(flags non-zero, no error or close flag) of a registered listening connection whose `accept`
yields the sockets `accepted`, all of valid descriptor, and then an invalid descriptor, one
pass of `WebServer::eventHandler` over the entry registers exactly the `k` sockets `good`
among them whose socket object answers `isValid()` (their descriptors not open before,
hence not registered and pairwise distinct): it appends these `k` connections to the
registry and their descriptors to the interest set, creates `k` socket objects holding the
`k` consecutive new timer handles, adds one live timer entry per connection to the queue
and emits exactly the `k` Accept events; a socket whose object is not valid leaves no
trace, and no session is enqueued. -/
theorem accept_loop_drain (B : Backend) (s : WebServer)
    (item : EpollEvent) (ptr : Nat) (c : AbstractSocket)
    (accepted good tail : List SocketInfo) (bad : SocketInfo)
    (hreach : Reachable B s)
    (hev : item.events ≠ 0)
    (hflags : ¬ (item.events &&& B.ERROR_EVENT ≠ 0 ∨ item.events &&& B.CLOSE_EVENT ≠ 0))
    (hreg : Connections.find s.m_connections item.fd = some ptr)
    (hc : s.sockets[ptr]? = some c) (hl : c.isListening = true)
    (hacc : item.accepts = accepted ++ bad :: tail)
    (hvalid : ∀ i ∈ accepted, B.isValid i.descriptor = true)
    (hbad : B.isValid bad.descriptor = false)
    (hkeep : accepted.filter (fun i => i.connectValid) = good)
    (hfresh : ∀ i ∈ good, Connections.find s.m_connections i.descriptor = none)
    (hnd : (good.map (fun i => i.descriptor)).Nodup) :
    (s.handleItem B item).m_connections =
      s.m_connections ++ (good.enumFrom s.sockets.length).map (fun p => (p.2.descriptor, p.1)) ∧
    (s.handleItem B item).m_connections.length = s.m_connections.length + good.length ∧
    (s.handleItem B item).m_epoll = s.m_epoll ++ good.map (fun i => i.descriptor) ∧
    (s.handleItem B item).m_epoll.length = s.m_epoll.length + good.length ∧
    (s.handleItem B item).sockets =
      s.sockets ++ (good.enumFrom s.m_timerManager.nextId).map (fun p =>
        { descriptor := p.2.descriptor, isListening := false, sslEnable := c.sslEnable,
          times := 0, timer := some p.1 }) ∧
    (s.handleItem B item).effectsSince s =
      good.map (fun i => Effect.connectEvent i.descriptor ConnectType.Accpet) ∧
    (((s.handleItem B item).effectsSince s).filter
      (Effect.isConnect ConnectType.Accpet)).length = good.length ∧
    (s.handleItem B item).m_pool = s.m_pool ∧
    (s.handleItem B item).m_timerManager.nextId = s.m_timerManager.nextId + good.length ∧
    (s.handleItem B item).m_timerManager.queue.length =
      s.m_timerManager.queue.length + good.length ∧
    (∀ x, x ∈ (s.handleItem B item).m_timerManager.queue ↔
      x ∈ s.m_timerManager.queue ∨
      x ∈ (good.enumFrom s.m_timerManager.nextId).map (fun p =>
        { id := p.1, userData := p.2.descriptor,
          deadline := s.m_timerManager.now + s.m_timerManager.timeout, live := true })) ∧
    (∀ x ∈ s.m_timerManager.queue, x.id < s.m_timerManager.nextId) := by
  have hwf := wf_reachable B s hreach
  have hitem : s.handleItem B item = s.acceptLoop B c.sslEnable (good ++ bad :: tail) := by
    unfold WebServer.handleItem
    rw [if_neg hev, hreg]
    simp only
    rw [if_neg hflags, hc]
    simp only
    rw [if_pos hl, hacc, acceptLoop_filter B c.sslEnable (bad :: tail) accepted s hvalid, hkeep]
  have hrest : ∀ i, (bad :: tail).head? = some i → B.isValid i.descriptor = false := by
    intro i hi
    simp only [List.head?_cons, Option.some.injEq] at hi
    rw [← hi]; exact hbad
  have hgood : ∀ i ∈ good, B.isValid i.descriptor = true ∧ i.connectValid = true := by
    intro i hi
    rw [← hkeep] at hi
    have hm := List.mem_filter.mp hi
    exact ⟨hvalid i hm.1, hm.2⟩
  obtain ⟨h1, h2, h3, h4, h5, h6, -, -, h9, h10⟩ :=
    acceptLoop_spec B c.sslEnable (bad :: tail) hrest good s hwf hgood hfresh hnd
  rw [hitem]
  have heff : (s.acceptLoop B c.sslEnable (good ++ bad :: tail)).effectsSince s =
      good.map (fun i => Effect.connectEvent i.descriptor ConnectType.Accpet) :=
    effectsSince_append _ _ _ h4
  refine ⟨h1, ?_, h2, ?_, h3, heff, ?_, h5, h6, h9, h10, hwf.timers.1⟩
  · rw [h1]; simp
  · rw [h2]; simp
  · rw [heff]
    have : ∀ l : List SocketInfo,
        (l.map (fun i => Effect.connectEvent i.descriptor ConnectType.Accpet)).filter
          (Effect.isConnect ConnectType.Accpet) =
        l.map (fun i => Effect.connectEvent i.descriptor ConnectType.Accpet) := by
      intro l
      rw [List.filter_eq_self]
      intro e he
      obtain ⟨i, _, rfl⟩ := List.mem_map.mp he
      rfl
    rw [this, List.length_map]

/-- Witness of `accept_loop_drain` with k = 5: five connections pending on the listener of
descriptor 3, all with a valid socket object; afterwards the registry holds the listener
and the five connections. -/
theorem accept_loop_drain_witness :
    Reachable exampleBackend listeningServer ∧
    listenerReady.accepts = fivePending ++ [{ descriptor := -1, connectValid := false }] ∧
    exampleBackend.isValid (-1) = false ∧
    fivePending.filter (fun i => i.connectValid) = fivePending ∧
    (listeningServer.handleItem exampleBackend listenerReady).m_connections.length =
      listeningServer.m_connections.length + fivePending.length ∧
    fivePending.length = 5 ∧
    Connections.keys (listeningServer.handleItem exampleBackend listenerReady).m_connections =
      [3, 4, 5, 6, 7, 8] :=
  ⟨quietReachable_reachable _ _ quiet_listeningServer, rfl, by decide, by decide,
   (accept_loop_drain exampleBackend listeningServer listenerReady 0 listenerSocket
      fivePending fivePending [] { descriptor := -1, connectValid := false }
      (quietReachable_reachable _ _ quiet_listeningServer)
      (by decide) (by decide) (by decide) (by decide) rfl rfl (by decide) (by decide)
      (by decide) (by decide) (by decide)).2.1,
   rfl, by decide⟩

/-- C6, counterexample to the drain of every valid descriptor: `accept` on the listener yields
the valid descriptors 4 and 5 and then the invalid -1, and the socket object built for
descriptor 5 does not answer `isValid()`. `acceptConnection` drops it: one connection is
registered and one Accept event is emitted, not two. -/
theorem accept_loop_counterexample :
    Reachable exampleBackend listeningServer ∧
    Connections.find listeningServer.m_connections 3 = some 0 ∧
    listeningServer.sockets[0]? = some listenerSocket ∧
    exampleBackend.isValid 4 = true ∧ exampleBackend.isValid 5 = true ∧
    exampleBackend.isValid (-1) = false ∧
    Connections.keys listeningServer.m_connections = [3] ∧
    Connections.keys (listeningServer.handleItem exampleBackend halfValidReady).m_connections =
      [3, 4] ∧
    (listeningServer.handleItem exampleBackend halfValidReady).m_epoll = [3, 4] ∧
    (listeningServer.handleItem exampleBackend halfValidReady).effectsSince listeningServer =
      [Effect.connectEvent 4 ConnectType.Accpet] ∧
    (listeningServer.handleItem exampleBackend halfValidReady).m_timerManager.queue.length =
      1 :=
  ⟨quietReachable_reachable _ _ quiet_listeningServer, by decide⟩

/-! ## Timers and sessions in flight -/

theorem isLive_deleteLater_self (tm : TimerManager) (id : Nat) :
    (tm.deleteLater id).isLive id = false := by
  unfold TimerManager.deleteLater TimerManager.isLive
  simp only [List.any_map]
  rw [List.any_eq_false]
  intro x _
  by_cases h : x.id = id
  · simp [h]
  · simp [h]

theorem isLive_deleteLaterOpt_false (tm : TimerManager) (o : Option Nat) (id : Nat)
    (h : tm.isLive id = false) : (tm.deleteLaterOpt o).isLive id = false := by
  cases o with
  | none => exact h
  | some k =>
    unfold TimerManager.isLive at h ⊢
    rw [List.any_eq_false] at h
    simp only [TimerManager.deleteLaterOpt, TimerManager.deleteLater, List.any_map]
    rw [List.any_eq_false]
    intro x hx
    have hx1 := h x hx
    by_cases hk : x.id = k
    · simp only [Function.comp, hk, if_true]
      cases hb : (k == id) <;> simp
    · simpa [Function.comp, hk] using hx1

theorem isLive_addTimer_ne (tm : TimerManager) (fd : Socket) (id : Nat) (h : id ≠ tm.nextId) :
    (tm.addTimer fd).1.isLive id = tm.isLive id := by
  unfold TimerManager.addTimer TimerManager.isLive
  simp only
  rw [isLive_insertSorted]
  have : (tm.nextId == id) = false := by
    simp only [beq_eq_false_iff_ne, ne_eq]
    exact fun e => h e.symm
  simp [this]

theorem release_isLive_false (s : WebServer) (d : Socket) (id : Nat)
    (h : s.m_timerManager.isLive id = false) :
    (s.release d).m_timerManager.isLive id = false := by
  cases hf : Connections.find s.m_connections d with
  | none => rw [release_of_missing s d hf]; exact h
  | some ptr =>
    rw [release_of_found s d ptr hf]
    exact isLive_deleteLaterOpt_false _ _ _ h

theorem serviced_isLive (s : WebServer) (connect : Nat) (c : AbstractSocket) (id : Nat)
    (hid : c.timer = some id) : (s.serviced connect c).m_timerManager.isLive id = false := by
  simp only [WebServer.serviced, WebServer.modifySocket, WebServer.emit, hid,
    TimerManager.deleteLaterOpt]
  exact isLive_deleteLater_self _ _

/-- C9 (as the code has it). The timer of a connection whose session is enqueued stays as it
was: for a readiness entry (flags non-zero, no error or close flag) of a registered
connection that is not listening, `WebServer::eventHandler` only appends the session to
the worker queue and leaves the timer queue untouched. The session itself cancels the
entry, at `connect->timer()->deleteLater()` after the service dispatcher returned, and when
a session with a valid request has completed, the entry it found is not live (the
connection was released or holds a new entry). -/
theorem dispatch_keeps_timer (B : Backend) (s : WebServer)
    (item : EpollEvent) (ptr : Nat) (c : AbstractSocket) (env : SessionEnv)
    (hreach : Reachable B s)
    (hev : item.events ≠ 0)
    (hflags : ¬ (item.events &&& B.ERROR_EVENT ≠ 0 ∨ item.events &&& B.CLOSE_EVENT ≠ 0))
    (hreg : Connections.find s.m_connections item.fd = some ptr)
    (hc : s.sockets[ptr]? = some c) (hl : c.isListening = false)
    (hvalid : env.request.isValid = true) :
    s.handleItem B item = { s with m_pool := s.m_pool ++ [ptr] } ∧
    (s.handleItem B item).m_timerManager = s.m_timerManager ∧
    (∀ id, (s.handleItem B item).m_timerManager.isLive id = s.m_timerManager.isLive id) ∧
    (∀ id, c.timer = some id →
      ((s.handleItem B item).serviced ptr c).m_timerManager.isLive id = false) ∧
    (∀ id, c.timer = some id →
      ((s.handleItem B item).session ptr env).m_timerManager.isLive id = false) := by
  have hwf := wf_reachable B s hreach
  have hitem : s.handleItem B item = { s with m_pool := s.m_pool ++ [ptr] } := by
    unfold WebServer.handleItem
    rw [if_neg hev, hreg]
    simp only
    rw [if_neg hflags, hc]
    simp only [hl, Bool.false_eq_true, if_false]
  refine ⟨hitem, by rw [hitem], fun id => by rw [hitem], ?_, ?_⟩
  · intro id hid
    exact serviced_isLive _ ptr c id hid
  · intro id hid
    rw [hitem]
    have hc2 : (WebServer.sockets { s with m_pool := s.m_pool ++ [ptr] })[ptr]? = some c := hc
    by_cases h : env.request.isKeepAlive = false ∨ s.m_maxTimes < c.times + 1
    · obtain ⟨extra, h1, -⟩ := session_closing_spec { s with m_pool := s.m_pool ++ [ptr] }
        ptr c env hc2 hvalid h
      rw [h1]
      exact release_isLive_false _ _ _ (serviced_isLive _ ptr c id hid)
    · have hk : env.request.isKeepAlive = true := by
        cases hb : env.request.isKeepAlive
        · exact absurd (Or.inl hb) h
        · rfl
      have hle : c.times + 1 ≤ s.m_maxTimes := not_lt.mp (fun hh => h (Or.inr hh))
      obtain ⟨extra, h1, -⟩ := session_keeping_spec { s with m_pool := s.m_pool ++ [ptr] }
        ptr c env hc2 hvalid hk hle
      rw [h1]
      simp only
      have hlt : id < s.m_timerManager.nextId :=
        hwf.timers.2 c (List.getElem?_mem hc) id hid
      rw [isLive_addTimer_ne _ _ _ (by rw [deleteLaterOpt_nextId]; exact Nat.ne_of_lt hlt), hid]
      exact isLive_deleteLater_self _ _

/-- Witness of `dispatch_keeps_timer`: descriptor 5 becomes readable in the example run;
its timer (handle 0) is still live after the dispatch. -/
theorem dispatch_keeps_timer_witness :
    Reachable exampleBackend acceptedServer ∧
    Connections.find acceptedServer.m_connections (readable 5).fd = some 1 ∧
    acceptedServer.sockets[1]? = some acceptedSocket ∧
    (acceptedServer.handleItem exampleBackend (readable 5)).m_timerManager =
      acceptedServer.m_timerManager ∧
    (acceptedServer.handleItem exampleBackend (readable 5)).m_timerManager.isLive 0 = true :=
  ⟨reachable_acceptedServer, by decide, by decide,
   (dispatch_keeps_timer exampleBackend acceptedServer (readable 5) 1 acceptedSocket
      goodSession reachable_acceptedServer (by decide) (by decide) (by decide) (by decide)
      rfl rfl).2.1,
   by decide⟩

/-- C9, counterexample: the timer of descriptor 5 is due when the descriptor becomes
readable. In one iteration of `exec`, `eventHandler` enqueues the session, the timer
(handle 0) is still live, and the sweep releases the connection while its session is in
flight. -/
theorem processing_timer_counterexample :
    Reachable exampleBackend
      ((acceptedServer.tick 3000).execIteration exampleBackend [readable 5]) ∧
    ((acceptedServer.tick 3000).eventHandler exampleBackend [readable 5]).m_pool = [1] ∧
    ((acceptedServer.tick 3000).eventHandler exampleBackend [readable 5]).timerOf 1 = some 0 ∧
    ((acceptedServer.tick 3000).eventHandler exampleBackend
      [readable 5]).m_timerManager.isLive 0 = true ∧
    ((acceptedServer.tick 3000).execIteration exampleBackend [readable 5]).inFlight 5 = 1 ∧
    Connections.find
      ((acceptedServer.tick 3000).execIteration exampleBackend [readable 5]).m_connections 5 =
      none ∧
    ((acceptedServer.tick 3000).execIteration exampleBackend [readable 5]).effectsSince
      acceptedServer = [Effect.connectEvent 5 ConnectType.Close] :=
  ⟨Reachable.step _ _
     (Reachable.step _ _ (Reachable.step _ _ reachable_acceptedServer (Step.tick _ 3000))
       (Step.eventHandler _ [readable 5]))
     (Step.sweep _),
   by decide, by decide, by decide, by decide, by decide, by decide⟩

/-! ## The sweep terminates within its fuel -/

theorem popExpired_length (now : Nat) (q : List Timer) :
    (TimerManager.popExpired now q).1.length ≤ q.length ∧
    (∀ fd, (TimerManager.popExpired now q).2 = some fd →
      (TimerManager.popExpired now q).1.length < q.length) := by
  induction q with
  | nil => simp [TimerManager.popExpired]
  | cons t rest ih =>
    unfold TimerManager.popExpired
    split
    · exact ⟨Nat.le_succ_of_le ih.1, fun fd h => Nat.lt_succ_of_lt (ih.2 fd h)⟩
    · split
      · exact ⟨Nat.le_succ _, fun _ _ => Nat.lt_succ_self _⟩
      · exact ⟨Nat.le_refl _, fun fd h => by cases h⟩

theorem release_queue_length (s : WebServer) (d : Socket) :
    (s.release d).m_timerManager.queue.length = s.m_timerManager.queue.length := by
  cases hf : Connections.find s.m_connections d with
  | none => rw [release_of_missing s d hf]
  | some ptr =>
    rw [release_of_found s d ptr hf]
    simp only
    cases s.timerOf ptr with
    | none => rfl
    | some id => simp [TimerManager.deleteLaterOpt, TimerManager.deleteLater]

theorem sweepFuel_enough (n : Nat) :
    ∀ (m : Nat) (s : WebServer), s.m_timerManager.queue.length < n →
      s.m_timerManager.queue.length < m → s.sweepFuel n = s.sweepFuel m := by
  induction n with
  | zero => intro m s h; cases h
  | succ n ih =>
    intro m s hn hm
    cases m with
    | zero => cases hm
    | succ m =>
      unfold WebServer.sweepFuel
      have hp := popExpired_length s.m_timerManager.now s.m_timerManager.queue
      cases hr : s.m_timerManager.checkTop with
      | mk tm r =>
        cases r with
        | none => rfl
        | some socket =>
          simp only
          have h2 : (TimerManager.popExpired s.m_timerManager.now s.m_timerManager.queue).2 =
              some socket := by
            have := congrArg Prod.snd hr
            simpa [TimerManager.checkTop] using this
          have h1 : tm.queue = (TimerManager.popExpired s.m_timerManager.now
              s.m_timerManager.queue).1 := by
            have := congrArg Prod.fst hr
            simp only [TimerManager.checkTop] at this
            rw [← this]
          have hlt := hp.2 socket h2
          have hq : (WebServer.release { s with m_timerManager := tm }
              socket).m_timerManager.queue.length = tm.queue.length :=
            release_queue_length _ _
          apply ih
          · rw [hq, h1]; omega
          · rw [hq, h1]; omega

/-- The sweep of `exec` ends: any fuel above the length of the timer queue gives the result
of `sweep`. -/
theorem sweep_total (s : WebServer) (fuel : Nat) (h : s.m_timerManager.queue.length < fuel) :
    s.sweepFuel fuel = s.sweep :=
  sweepFuel_enough fuel _ s h (Nat.lt_succ_self _)

end TinyWebServer
